import Mathlib

/-!
# go-redis: generic command layer and glob matcher

A shallow embedding of

* `examples/go-redisd/server/generic.go` (`Del`, `Exists`, `Expire`, `Type`, `Keys`,
  `Rename`, `TTL`),
* `redis/regexp/regexp.go` (`MustCompile`),
* `redis/options.go` (`ExpireOption`, `RenameOption`).

Go values of type `time.Time` are integers counting nanoseconds, `time.Duration` is a
signed 64-bit count of nanoseconds, `int` is the 64-bit integer type.  A handler
returning `(*Message, error)` is embedded as an `Outcome`; a Go panic is the third
outcome.  The keyspace a handler works on is threaded explicitly: every handler returns
the server state it leaves behind.  The clock is explicit as well: a handler takes the
time at which the keyspace judges liveness during the call and, where the handler calls
`time.Now()` itself, the value of that later reading.
-/

namespace GoRedis

/-! ## Time -/

/-- Largest `time.Duration` (`1<<63 - 1` nanoseconds). -/
def maxDuration : Int := 9223372036854775807

/-- Smallest `time.Duration` (`-1 << 63` nanoseconds). -/
def minDuration : Int := -9223372036854775808

/-- The constant `time.Second`, in nanoseconds. -/
def Second : Int := 1000000000

/-- Go `Time.Sub`: the duration `t - u`, saturated to the range of `time.Duration`. -/
def Time.Sub (t u : Int) : Int :=
  if t - u > maxDuration then maxDuration
  else if t - u < minDuration then minDuration
  else t - u

/-- Go `Time.Add`: the instant `t + d`. -/
def Time.Add (t d : Int) : Int := t + d

/-! ## Messages, errors, options -/

/-- Protocol-level results built by `redis.NewIntegerMessage`, `redis.NewStringMessage`,
`redis.NewOKMessage` and `redis.NewStringArrayMessage`. -/
inductive Message where
  | integer (n : Int)
  | string (s : String)
  | ok
  | stringArray (l : List String)
deriving DecidableEq, Repr

/-- Error values of the error taxonomy: a database index that does not resolve, a rename
whose source key has no live record, a pattern that does not compile. -/
inductive Error where
  | unknownDatabase
  | keyNotFound
  | invalidPattern
deriving DecidableEq, Repr

/-- What a handler call produces: `(msg, nil)`, `(nil, err)`, or a panic that unwinds
out of the handler. -/
inductive Outcome where
  | ok (m : Message)
  | err (e : Error)
  | panic
deriving DecidableEq, Repr

/-- The struct `redis.ExpireOption`. -/
structure ExpireOption where
  Time : Int
  NX : Bool
  XX : Bool
  GT : Bool
  LT : Bool
deriving DecidableEq, Repr

/-- The struct `redis.RenameOption`. -/
structure RenameOption where
  NX : Bool
deriving DecidableEq, Repr

/-! ## Records and the keyspace -/

/-- Payload of a record (`record.Data`, an `interface{}` in the source).  The five
variants are the ones the type switch of `Type` knows; `other` is any other dynamic
type. -/
inductive Data where
  | str (v : String)
  | hash (v : List (String × String))
  | list (v : List String)
  | set (v : List String)
  | zset (v : List (String × Int))
  | other (tag : Nat)
deriving DecidableEq, Repr

/-- A record: the fields `Data`, `Timestamp` and `TTL` read and written by the
handlers. -/
structure Record where
  Data : Data
  Timestamp : Int
  TTL : Int
deriving DecidableEq, Repr

/-- Modelled from the spec: the liveness rule of a Record (the code deciding it is in the
Database type, which is not among the sources).  A record is live at time `t` iff
`ttl <= 0` (persists forever) or `createdAt + ttl > t`. -/
def Record.live (r : Record) (t : Int) : Bool :=
  decide (r.TTL ≤ 0) || decide (r.Timestamp + r.TTL > t)

/-- Modelled from the spec: the Keyspace, a mapping from key to Record (the Database
type is not among the sources).  The mapping is an association list read at its first
entry for a key. -/
structure Database where
  records : List (String × Record)
deriving DecidableEq, Repr

/-- First record paired with `key` in an association list. -/
def lookupRecord (key : String) : List (String × Record) → Option Record
  | [] => none
  | (k, r) :: rest => if k = key then some r else lookupRecord key rest

/-- Record stored at `key`, live or not. -/
def Database.find (db : Database) (key : String) : Option Record :=
  lookupRecord key db.records

/-- The association list without the entries for `key`. -/
def eraseRecord (key : String) : List (String × Record) → List (String × Record)
  | [] => []
  | (k, r) :: rest =>
    if k = key then eraseRecord key rest else (k, r) :: eraseRecord key rest

/-- The keyspace without any entry for `key`. -/
def Database.erase (db : Database) (key : String) : Database :=
  ⟨eraseRecord key db.records⟩

/-- The keyspace with `key` mapped to `r`. -/
def Database.insert (db : Database) (key : String) (r : Record) : Database :=
  ⟨(key, r) :: (db.erase key).records⟩

/-- Modelled from the spec: Keyspace.get (Database.GetRecord is not among the sources).
Returns the live Record for `key`, or not-found if absent or expired; if the stored
record has logically expired, the key is removed before not-found is returned. -/
def Database.GetRecord (db : Database) (now : Int) (key : String) :
    Option Record × Database :=
  match db.find key with
  | none => (none, db)
  | some r => if r.live now then (some r, db) else (none, db.erase key)

/-- Modelled from the spec: Keyspace.remove (Database.RemoveRecord is not among the
sources).  Deletes the key unconditionally if present (live or not); the Go method
returns a nil error iff something was removed, here `true`. -/
def Database.RemoveRecord (db : Database) (key : String) : Bool × Database :=
  match db.find key with
  | none => (false, db)
  | some _ => (true, db.erase key)

/-- Modelled from the spec: Keyspace.rename (Database.RenameRecord is not among the
sources).  Fails with KeyNotFound, leaving the state as it was, if `key` has no live
record; otherwise moves the Record from `key` to `newkey`, overwriting any record at
`newkey` and removing `key`. -/
def Database.RenameRecord (db : Database) (now : Int) (key newkey : String) :
    Except Error Database :=
  match db.find key with
  | none => .error .keyNotFound
  | some r =>
    if r.live now then .ok ((db.insert newkey r).erase key)
    else .error .keyNotFound

/-- Modelled from the spec: Keyspace.keys (Database.Keys is not among the sources), a
snapshot of all keys currently present. -/
def Database.Keys (db : Database) : List String :=
  db.records.map (fun e => e.1)

/-- The live view of the keyspace at time `t`: what a lookup of `key` observes. -/
def Database.liveAt (db : Database) (t : Int) (key : String) : Option Record :=
  (db.GetRecord t key).1

/-! ## Server and connection -/

/-- A connection; `Database` is the index `conn.Database()` returns. -/
structure Conn where
  Database : Int
deriving DecidableEq, Repr

/-- Modelled from the spec: the Database Registry, a mapping from non-negative index to
Keyspace (the Server type is not among the sources). -/
structure Server where
  databases : List Database
deriving DecidableEq, Repr

/-- Modelled from the spec: resolution of a database index (Server.GetDatabase is not
among the sources): the Keyspace at that index, or the UnknownDatabase failure. -/
def Server.GetDatabase (server : Server) (id : Int) : Except Error Database :=
  if id < 0 then .error .unknownDatabase
  else match server.databases[id.toNat]? with
    | some db => .ok db
    | none => .error .unknownDatabase

/-- The server after the handler has mutated the keyspace at index `id` into `db`
(the handlers hold a pointer to the keyspace, so their writes are writes to the
server). -/
def Server.store (server : Server) (id : Int) (db : Database) : Server :=
  ⟨server.databases.set id.toNat db⟩

/-! ## generic.go -/

/-- The loop of `Del`: removes each key, counting the calls that returned no error. -/
def delLoop (db : Database) (removedCount : Int) : List String → Int × Database
  | [] => (removedCount, db)
  | key :: keys =>
    match db.RemoveRecord key with
    | (true, db') => delLoop db' (removedCount + 1) keys
    | (false, db') => delLoop db' removedCount keys

/-- `Server.Del`. -/
def Server.Del (server : Server) (conn : Conn) (keys : List String) : Outcome × Server :=
  match server.GetDatabase conn.Database with
  | .error e => (.err e, server)
  | .ok db =>
    let (removedCount, db') := delLoop db 0 keys
    (.ok (.integer removedCount), server.store conn.Database db')

/-- The loop of `Exists`: looks each key up, counting the lookups that found a record. -/
def existsLoop (now : Int) (db : Database) (existCount : Int) :
    List String → Int × Database
  | [] => (existCount, db)
  | key :: keys =>
    match db.GetRecord now key with
    | (some _, db') => existsLoop now db' (existCount + 1) keys
    | (none, db') => existsLoop now db' existCount keys

/-- `Server.Exists`; `now` is the time at which the lookups judge liveness. -/
def Server.Exists (server : Server) (conn : Conn) (keys : List String) (now : Int) :
    Outcome × Server :=
  match server.GetDatabase conn.Database with
  | .error e => (.err e, server)
  | .ok db =>
    let (existCount, db') := existsLoop now db 0 keys
    (.ok (.integer existCount), server.store conn.Database db')

/-- Write through the pointer `GetRecord` returned: the first entry for `key` has its
record replaced by `f` of it. -/
def modifyRecord (key : String) (f : Record → Record) :
    List (String × Record) → List (String × Record)
  | [] => []
  | (k, r) :: rest =>
    if k = key then (k, f r) :: rest else (k, r) :: modifyRecord key f rest

/-- The keyspace after a write to the record object stored at `key`. -/
def Database.modify (db : Database) (key : String) (f : Record → Record) : Database :=
  ⟨modifyRecord key f db.records⟩

/-- `Server.Expire`; `tLookup` is the time at which `GetRecord` judges liveness, `now`
the value of the handler's own `time.Now()`. -/
def Server.Expire (server : Server) (conn : Conn) (key : String) (opt : ExpireOption)
    (tLookup now : Int) : Outcome × Server :=
  match server.GetDatabase conn.Database with
  | .error _ => (.ok (.integer 0), server)
  | .ok db =>
    match db.GetRecord tLookup key with
    | (none, db') => (.ok (.integer 0), server.store conn.Database db')
    | (some _, db') =>
      (.ok (.integer 1),
        server.store conn.Database
          (db'.modify key (fun record => { record with TTL := Time.Sub opt.Time now })))

/-- `Server.Type`; `now` is the time at which `GetRecord` judges liveness. -/
def Server.Type (server : Server) (conn : Conn) (key : String) (now : Int) :
    Outcome × Server :=
  match server.GetDatabase conn.Database with
  | .error e => (.err e, server)
  | .ok db =>
    match db.GetRecord now key with
    | (none, db') => (.ok (.string "none"), server.store conn.Database db')
    | (some record, db') =>
      let server' := server.store conn.Database db'
      match record.Data with
      | .str _ => (.ok (.string "string"), server')
      | .hash _ => (.ok (.string "hash"), server')
      | .list _ => (.ok (.string "list"), server')
      | .set _ => (.ok (.string "set"), server')
      | .zset _ => (.ok (.string "zset"), server')
      | .other _ => (.ok (.string "none"), server')

/-- The part of `Rename` after the `NX` check: the call of `RenameRecord` and the
result built from it. -/
def renameMove (server : Server) (conn : Conn) (db : Database) (key newkey : String)
    (opt : RenameOption) (now : Int) : Outcome × Server :=
  match db.RenameRecord now key newkey with
  | .error e => (.err e, server.store conn.Database db)
  | .ok db' =>
    if opt.NX then (.ok (.integer 1), server.store conn.Database db')
    else (.ok .ok, server.store conn.Database db')

/-- `Server.Rename`; `now` is the time at which the keyspace judges liveness. -/
def Server.Rename (server : Server) (conn : Conn) (key newkey : String)
    (opt : RenameOption) (now : Int) : Outcome × Server :=
  match server.GetDatabase conn.Database with
  | .error e => (.err e, server)
  | .ok db =>
    if opt.NX then
      match db.GetRecord now newkey with
      | (some _, db') => (.ok (.integer 0), server.store conn.Database db')
      | (none, db') => renameMove server conn db' key newkey opt now
    else renameMove server conn db key newkey opt now

/-- The constant `ttlRecordNotFound` of `TTL`. -/
def ttlRecordNotFound : Int := -2

/-- The constant `ttlRecordNotSet` of `TTL`. -/
def ttlRecordNotSet : Int := -1

/-- `Server.TTL`; `tLookup` is the time at which `GetRecord` judges liveness, `now` the
value of the handler's own `time.Now()`. -/
def Server.TTL (server : Server) (conn : Conn) (key : String) (tLookup now : Int) :
    Outcome × Server :=
  match server.GetDatabase conn.Database with
  | .error e => (.err e, server)
  | .ok db =>
    match db.GetRecord tLookup key with
    | (none, db') => (.ok (.integer ttlRecordNotFound), server.store conn.Database db')
    | (some record, db') =>
      let server' := server.store conn.Database db'
      if record.TTL ≤ 0 then (.ok (.integer ttlRecordNotSet), server')
      else
        let ttl := Time.Sub (Time.Add record.Timestamp record.TTL) now
        if ttl < 0 then (.ok (.integer ttlRecordNotFound), server')
        else (.ok (.integer (Int.tdiv ttl Second)), server')

/-! ## The regular-expression engine

`regexp.go` hands the translated pattern to Go's package `regexp`.  The part of that
engine modelled here is the syntax made of literal characters, `.`, and the postfix
operators `*` and `+`; its size limits are not modelled.  For every other input the model
either knows that the engine rejects it (`syntaxError`) or makes no statement
(`unmodelled`). -/

namespace re

/-- A single-character matcher: a literal, or `.` (any character but newline). -/
inductive Atom where
  | lit (c : Char)
  | any
deriving DecidableEq, Repr

/-- How often an atom is repeated: once, `*`, or `+`. -/
inductive Rep where
  | one
  | star
  | plus
deriving DecidableEq, Repr

/-- An atom with its repetition. -/
structure Item where
  atom : Atom
  rep : Rep
deriving DecidableEq, Repr

/-- A compiled expression of the modelled syntax: a concatenation of items. -/
abbrev Regexp := List Item

/-- Result of compiling a pattern. -/
inductive Compiled where
  | ok (r : Regexp)
  | syntaxError
  | unmodelled
deriving DecidableEq, Repr

/-- Whether the atom matches the character. -/
def Atom.accepts : Atom → Char → Bool
  | .lit c, d => d == c
  | .any, d => d != '\n'

/-- The parser loop of the engine, with its stack of parsed items (top first) and the
flag telling that the previous token was a repetition operator. -/
def parseLoop (stack : List Item) (lastRepeat : Bool) : List Char → Compiled
  | [] => .ok stack.reverse
  | c :: t =>
    if c = '*' ∨ c = '+' then
      if lastRepeat then .syntaxError
      else match stack with
        | [] => .syntaxError
        | top :: below =>
          parseLoop (⟨top.atom, if c = '*' then .star else .plus⟩ :: below) true t
    else if c = '?' then
      match stack with
      | [] => .syntaxError
      | _ :: _ => .unmodelled
    else if c = '.' then parseLoop (⟨.any, .one⟩ :: stack) false t
    else if c = '(' then
      if t.contains ')' then .unmodelled else .syntaxError
    else if c = ')' then .syntaxError
    else if c = '[' then
      if t.contains ']' then .unmodelled else .syntaxError
    else if c = '\\' then
      match t with
      | [] => .syntaxError
      | _ :: _ => .unmodelled
    else if c = '|' ∨ c = ']' ∨ c = '{' ∨ c = '}' ∨ c = '^' ∨ c = '$' then .unmodelled
    else parseLoop (⟨.lit c, .one⟩ :: stack) false t

/-- Model of `regexp.Compile`. -/
def Compile (expr : String) : Compiled :=
  parseLoop [] false expr.data

/-- Greedy-or-not repetition of an atom followed by the continuation `k`. -/
def starLoop (a : Atom) (k : List Char → Bool) : List Char → Bool
  | [] => k []
  | c :: cs => k (c :: cs) || (a.accepts c && starLoop a k cs)

/-- Whether the expression matches a leading part of the text. -/
def matchHere : Regexp → List Char → Bool
  | [], _ => true
  | ⟨a, .one⟩ :: r, s =>
    match s with
    | [] => false
    | c :: cs => a.accepts c && matchHere r cs
  | ⟨a, .star⟩ :: r, s => starLoop a (matchHere r) s
  | ⟨a, .plus⟩ :: r, s =>
    match s with
    | [] => false
    | c :: cs => a.accepts c && starLoop a (matchHere r) cs

/-- Whether the expression matches at some position of the text. -/
def matchFrom (r : Regexp) : List Char → Bool
  | [] => matchHere r []
  | c :: cs => matchHere r (c :: cs) || matchFrom r cs

/-- Model of `(*Regexp).MatchString`: reports whether the text contains any match of the
expression. -/
def MatchString (r : Regexp) (s : String) : Bool :=
  matchFrom r s.data

end re

/-! ## regexp.go -/

/-- Go `strings.ReplaceAll` for a non-empty `old`: the non-overlapping occurrences of
`old`, found from left to right, are replaced by `new`.  `skip` counts the characters
of an occurrence already replaced that are still to be dropped. -/
def replaceLoop (old new : List Char) (skip : Nat) : List Char → List Char
  | [] => []
  | c :: t =>
    match skip with
    | n + 1 => replaceLoop old new n t
    | 0 =>
      if old.isPrefixOf (c :: t) then new ++ replaceLoop old new (old.length - 1) t
      else c :: replaceLoop old new 0 t

/-- Go `strings.ReplaceAll`.  An empty `old` matches at the beginning of the string and
after each character. -/
def ReplaceAll (s old new : String) : String :=
  match old.data with
  | [] => ⟨new.data ++ s.data.flatMap (fun c => c :: new.data)⟩
  | _ :: _ => ⟨replaceLoop old.data new.data 0 s.data⟩

/-- The table `repstrs` of `MustCompile`. -/
def repstrs : List (String × String) :=
  [("*", ".*"), ("?", ".")]

/-- The value of `re2Pattern` after the loop of `MustCompile`. -/
def re2Pattern (pattern : String) : String :=
  repstrs.foldl (fun acc repstr => ReplaceAll acc repstr.1 repstr.2) pattern

/-- `MustCompile`: the translated pattern handed to `regexp.MustCompile`, which panics
where `regexp.Compile` returns an error (`syntaxError`). -/
def MustCompile (pattern : String) : re.Compiled :=
  re.Compile (re2Pattern pattern)

/-- `Server.Keys`.  The result is `none` where the translated pattern is outside the
modelled syntax of the engine. -/
def Server.Keys (server : Server) (conn : Conn) (pattern : String) :
    Option (Outcome × Server) :=
  match server.GetDatabase conn.Database with
  | .error e => some (.err e, server)
  | .ok db =>
    match MustCompile pattern with
    | .syntaxError => some (.panic, server)
    | .unmodelled => none
    | .ok r =>
      some (.ok (.stringArray (db.Keys.filter (fun key => re.MatchString r key))), server)

/-! ## Definitions used by the statements -/

/-- Number of distinct keys of the list that are present in the keyspace. -/
def distinctPresent (db : Database) (keys : List String) : Nat :=
  (keys.dedup.filter (fun k => (db.find k).isSome)).length

/-- A keyspace holding `a` and `c`, both without expiration, and `e`, created at time 0
with a TTL of five seconds. -/
def sampleDb : Database :=
  ⟨[("a", ⟨.str "1", 0, 0⟩), ("c", ⟨.hash [], 0, 0⟩), ("e", ⟨.str "v", 0, 5000000000⟩)]⟩

/-- A server whose database 0 is `sampleDb`. -/
def sampleServer : Server := ⟨[sampleDb]⟩

/-- Glob matching of a whole text as the specification words it: `*` stands for any
sequence of zero or more characters, `?` for exactly one character, every other
character for itself.  `wild` tells which characters a wildcard may stand for. -/
def GlobMatches (wild : Char → Bool) : List Char → List Char → Prop
  | [], s => s = []
  | p :: ps, s =>
    if p = '*' then
      ∃ u v, s = u ++ v ∧ (∀ c ∈ u, wild c = true) ∧ GlobMatches wild ps v
    else if p = '?' then
      ∃ c v, s = c :: v ∧ wild c = true ∧ GlobMatches wild ps v
    else
      ∃ v, s = p :: v ∧ GlobMatches wild ps v

/-- Wildcards that stand for every character. -/
def anyChar : Char → Bool := fun _ => true

/-- Wildcards that stand for every character but the newline. -/
def notNewline : Char → Bool := fun c => c != '\n'

/-- The characters with a special meaning in the syntax of the engine. -/
def metaChars : List Char :=
  ['\\', '.', '+', '*', '?', '(', ')', '|', '[', ']', '{', '}', '^', '$']

/-- A character of a glob pattern that is `*`, `?`, or has no special meaning in the
engine. -/
def GlobChar (c : Char) : Prop :=
  c = '*' ∨ c = '?' ∨ c ∉ metaChars

instance GlobChar.decidable : DecidablePred GlobChar := fun c =>
  inferInstanceAs (Decidable (c = '*' ∨ c = '?' ∨ c ∉ metaChars))

/-- The characters a character of the pattern becomes in `re2Pattern`. -/
def translateChar (c : Char) : List Char :=
  if c = '*' then ['.', '*'] else if c = '?' then ['.'] else [c]

/-- The item of the compiled expression a glob character becomes. -/
def globItem (c : Char) : re.Item :=
  if c = '*' then ⟨.any, .star⟩ else if c = '?' then ⟨.any, .one⟩ else ⟨.lit c, .one⟩

/-! ## Lemmas on the keyspace -/

theorem lookupRecord_erase_self (key : String) (l : List (String × Record)) :
    lookupRecord key (eraseRecord key l) = none := by
  induction l with
  | nil => rfl
  | cons e rest ih =>
    obtain ⟨k, r⟩ := e
    by_cases hk : k = key
    · simp [eraseRecord, hk, ih]
    · simp [eraseRecord, hk, lookupRecord, ih]

theorem lookupRecord_erase_ne (key other : String) (h : other ≠ key)
    (l : List (String × Record)) :
    lookupRecord other (eraseRecord key l) = lookupRecord other l := by
  induction l with
  | nil => rfl
  | cons e rest ih =>
    obtain ⟨k, r⟩ := e
    by_cases hk : k = key
    · have hko : ¬ key = other := fun h' => h h'.symm
      simp [eraseRecord, hk, lookupRecord, ih, hko]
    · by_cases hko : k = other
      · subst hko
        simp [eraseRecord, hk, lookupRecord]
      · simp [eraseRecord, hk, lookupRecord, hko, ih]

theorem Database.find_erase_self (db : Database) (key : String) :
    (db.erase key).find key = none :=
  lookupRecord_erase_self key db.records

theorem Database.find_erase_ne (db : Database) (key other : String) (h : other ≠ key) :
    (db.erase key).find other = db.find other :=
  lookupRecord_erase_ne key other h db.records

theorem Database.find_insert_self (db : Database) (key : String) (r : Record) :
    (db.insert key r).find key = some r := by
  simp [Database.insert, Database.find, lookupRecord]

theorem Database.find_insert_ne (db : Database) (key other : String) (r : Record)
    (h : other ≠ key) : (db.insert key r).find other = db.find other := by
  have h' : ¬ key = other := fun e => h e.symm
  simp only [Database.insert, Database.find, lookupRecord, h', if_false]
  exact lookupRecord_erase_ne key other h db.records

theorem eraseRecord_of_lookup_none (key : String) (l : List (String × Record))
    (h : lookupRecord key l = none) : eraseRecord key l = l := by
  induction l with
  | nil => rfl
  | cons e rest ih =>
    obtain ⟨k, r⟩ := e
    by_cases hk : k = key
    · simp [lookupRecord, hk] at h
    · simp only [lookupRecord, hk, if_false] at h
      simp [eraseRecord, hk, ih h]

theorem Database.erase_of_find_none (db : Database) (key : String)
    (h : db.find key = none) : db.erase key = db := by
  obtain ⟨l⟩ := db
  simp only [Database.erase, Database.find] at *
  rw [eraseRecord_of_lookup_none key l h]

theorem Server.GetDatabase_eq_ok (server : Server) (id : Int) (db : Database)
    (h : server.GetDatabase id = .ok db) :
    ∃ hlt : id.toNat < server.databases.length, server.databases[id.toNat] = db := by
  unfold Server.GetDatabase at h
  by_cases hid : id < 0
  · simp [hid] at h
  · simp only [hid, if_false] at h
    cases hg : server.databases[id.toNat]? with
    | none => simp [hg] at h
    | some d =>
      simp only [hg, Except.ok.injEq] at h
      subst h
      rcases List.getElem?_eq_some_iff.mp hg with ⟨hlt, hget⟩
      exact ⟨hlt, hget⟩

theorem Server.GetDatabase_store (server : Server) (id : Int) (db db' : Database)
    (h : server.GetDatabase id = .ok db) :
    (server.store id db').GetDatabase id = .ok db' := by
  obtain ⟨hlt, _⟩ := Server.GetDatabase_eq_ok server id db h
  have hid : ¬ id < 0 := by
    intro hneg
    simp [Server.GetDatabase, hneg] at h
  simp [Server.GetDatabase, Server.store, hid, hlt]

theorem Server.store_self (server : Server) (id : Int) (db : Database)
    (h : server.GetDatabase id = .ok db) : server.store id db = server := by
  obtain ⟨hlt, hget⟩ := Server.GetDatabase_eq_ok server id db h
  obtain ⟨dbs⟩ := server
  simp only [Server.store] at *
  congr 1
  rw [← hget]
  apply List.ext_getElem (by simp)
  intro n h1 h2
  by_cases hn : id.toNat = n
  · subst hn
    simp
  · simp [List.getElem_set, hn]

/-! ## Del -/

theorem distinctPresent_eq_card (db : Database) (keys : List String) :
    distinctPresent db keys
      = (keys.toFinset.filter (fun k => (db.find k).isSome = true)).card := by
  unfold distinctPresent
  rw [← List.toFinset_card_of_nodup ((List.nodup_dedup keys).filter _)]
  congr 1
  ext k
  simp

theorem distinctPresent_cons_absent (db : Database) (key : String) (keys : List String)
    (h : db.find key = none) :
    distinctPresent db (key :: keys) = distinctPresent db keys := by
  rw [distinctPresent_eq_card, distinctPresent_eq_card]
  congr 1
  ext k
  simp only [List.toFinset_cons, Finset.mem_filter, Finset.mem_insert, List.mem_toFinset]
  constructor
  · rintro ⟨hk | hk, hp⟩
    · subst hk
      simp [h] at hp
    · exact ⟨hk, hp⟩
  · rintro ⟨hk, hp⟩
    exact ⟨Or.inr hk, hp⟩

theorem distinctPresent_cons_present (db : Database) (key : String) (keys : List String)
    (r : Record) (h : db.find key = some r) :
    distinctPresent db (key :: keys) = distinctPresent (db.erase key) keys + 1 := by
  rw [distinctPresent_eq_card, distinctPresent_eq_card]
  have hnot : key ∉ keys.toFinset.filter
      (fun k => ((db.erase key).find k).isSome = true) := by
    simp [Database.find_erase_self]
  rw [← Finset.card_insert_of_not_mem hnot]
  congr 1
  ext k
  simp only [List.toFinset_cons, Finset.mem_filter, Finset.mem_insert, List.mem_toFinset]
  by_cases hk : k = key
  · subst hk
    simp [h]
  · simp [hk, Database.find_erase_ne db key k hk]

theorem delLoop_count (keys : List String) :
    ∀ (db : Database) (n : Int),
      (delLoop db n keys).1 = n + (distinctPresent db keys : Int) := by
  induction keys with
  | nil =>
    intro db n
    simp [delLoop, distinctPresent]
  | cons key keys ih =>
    intro db n
    cases hf : db.find key with
    | none =>
      simp only [delLoop, Database.RemoveRecord, hf]
      rw [ih, distinctPresent_cons_absent db key keys hf]
    | some r =>
      simp only [delLoop, Database.RemoveRecord, hf]
      rw [ih, distinctPresent_cons_present db key keys r hf]
      push_cast
      ring

theorem delLoop_find_not_mem (keys : List String) :
    ∀ (db : Database) (n : Int) (k : String), k ∉ keys →
      (delLoop db n keys).2.find k = db.find k := by
  induction keys with
  | nil =>
    intro db n k _
    rfl
  | cons key keys ih =>
    intro db n k hk
    have hne : k ≠ key := fun e => hk (e ▸ List.mem_cons_self _ _)
    have hnot : k ∉ keys := fun hm => hk (List.mem_cons_of_mem _ hm)
    cases hf : db.find key with
    | none =>
      simp only [delLoop, Database.RemoveRecord, hf]
      exact ih db n k hnot
    | some r =>
      simp only [delLoop, Database.RemoveRecord, hf]
      rw [ih (db.erase key) (n + 1) k hnot, Database.find_erase_ne db key k hne]

theorem delLoop_find_mem (keys : List String) :
    ∀ (db : Database) (n : Int) (k : String), k ∈ keys →
      (delLoop db n keys).2.find k = none := by
  induction keys with
  | nil =>
    intro db n k hk
    simp at hk
  | cons key keys ih =>
    intro db n k hk
    by_cases hmem : k ∈ keys
    · cases hf : db.find key with
      | none =>
        simp only [delLoop, Database.RemoveRecord, hf]
        exact ih db n k hmem
      | some r =>
        simp only [delLoop, Database.RemoveRecord, hf]
        exact ih (db.erase key) (n + 1) k hmem
    · have hkey : k = key := by
        rcases List.mem_cons.mp hk with h | h
        · exact h
        · exact absurd h hmem
      subst hkey
      cases hf : db.find k with
      | none =>
        simp only [delLoop, Database.RemoveRecord, hf]
        rw [delLoop_find_not_mem keys db n k hmem, hf]
      | some r =>
        simp only [delLoop, Database.RemoveRecord, hf]
        rw [delLoop_find_not_mem keys (db.erase k) (n + 1) k hmem,
          Database.find_erase_self]

/-- C1: on a keyspace that resolves, `Del` returns, with no error, the integer message
counting the distinct listed keys that were present before the call; afterwards none of
the listed keys is present and every other key maps to the record it had.  In
particular `Del [k, k]` returns 1 when `k` is present. -/
theorem Del_counts_distinct_present (server : Server) (conn : Conn) (keys : List String)
    (db : Database) (h : server.GetDatabase conn.Database = .ok db) :
    ∃ db' : Database,
      server.Del conn keys
        = (.ok (.integer (distinctPresent db keys)), server.store conn.Database db')
      ∧ (server.Del conn keys).2.GetDatabase conn.Database = .ok db'
      ∧ (∀ k ∈ keys, db'.find k = none)
      ∧ (∀ k, k ∉ keys → db'.find k = db.find k)
      ∧ (∀ k, (db.find k).isSome = true →
          (server.Del conn [k, k]).1 = .ok (.integer 1)) := by
  refine ⟨(delLoop db 0 keys).2, ?_, ?_, ?_, ?_, ?_⟩
  · simp only [Server.Del, h]
    rw [← zero_add ((distinctPresent db keys : Nat) : Int), ← delLoop_count keys db 0]
  · simp only [Server.Del, h]
    exact Server.GetDatabase_store server conn.Database db _ h
  · intro k hk
    exact delLoop_find_mem keys db 0 k hk
  · intro k hk
    exact delLoop_find_not_mem keys db 0 k hk
  · intro k hk
    cases hf : db.find k with
    | none => simp [hf] at hk
    | some r =>
      simp [Server.Del, h, delLoop, Database.RemoveRecord, hf, Database.find_erase_self]

/-- C1 at a concrete keyspace: `a` and `c` are stored, `a`, `b`, `a` are deleted. -/
theorem Del_counts_distinct_present_witness :
    sampleServer.GetDatabase (Conn.mk 0).Database = .ok sampleDb
    ∧ ∃ db' : Database,
      sampleServer.Del ⟨0⟩ ["a", "b", "a"]
        = (.ok (.integer (distinctPresent sampleDb ["a", "b", "a"])),
            sampleServer.store (Conn.mk 0).Database db')
      ∧ (sampleServer.Del ⟨0⟩ ["a", "b", "a"]).2.GetDatabase (Conn.mk 0).Database = .ok db'
      ∧ (∀ k ∈ ["a", "b", "a"], db'.find k = none)
      ∧ (∀ k, k ∉ ["a", "b", "a"] → db'.find k = sampleDb.find k)
      ∧ (∀ k, (sampleDb.find k).isSome = true →
          (sampleServer.Del ⟨0⟩ [k, k]).1 = .ok (.integer 1)) :=
  ⟨rfl, Del_counts_distinct_present sampleServer ⟨0⟩ ["a", "b", "a"] sampleDb rfl⟩

/-! ## Lazy expiration -/

theorem Database.liveAt_eq (db : Database) (t : Int) (key : String) :
    db.liveAt t key = (db.find key).bind (fun r => if r.live t then some r else none) := by
  unfold Database.liveAt Database.GetRecord
  cases hf : db.find key with
  | none => rfl
  | some r =>
    by_cases hl : r.live t = true
    · simp [hl]
    · simp [hl]

theorem Database.liveAt_erase_self (db : Database) (t : Int) (key : String) :
    (db.erase key).liveAt t key = none := by
  rw [Database.liveAt_eq, Database.find_erase_self]
  rfl

theorem Database.liveAt_erase_ne (db : Database) (t : Int) (key other : String)
    (h : other ≠ key) : (db.erase key).liveAt t other = db.liveAt t other := by
  rw [Database.liveAt_eq, Database.liveAt_eq, Database.find_erase_ne db key other h]

/-- A lookup leaves the live view of the keyspace as it was. -/
theorem Database.liveAt_GetRecord (db : Database) (t : Int) (key other : String) :
    (db.GetRecord t key).2.liveAt t other = db.liveAt t other := by
  unfold Database.GetRecord
  cases hf : db.find key with
  | none => rfl
  | some r =>
    by_cases hl : r.live t = true
    · simp [hl]
    · have hl' : r.live t = false := by simpa using hl
      simp only [hl', Bool.false_eq_true, if_false]
      by_cases hk : other = key
      · subst hk
        rw [Database.liveAt_erase_self, Database.liveAt_eq, hf]
        simp [hl']
      · exact Database.liveAt_erase_ne db t key other hk

theorem Database.GetRecord_fst (db : Database) (t : Int) (key : String) :
    (db.GetRecord t key).1 = db.liveAt t key := rfl

theorem existsLoop_count (now : Int) (keys : List String) :
    ∀ (db : Database) (n : Int),
      (existsLoop now db n keys).1
        = n + ((keys.filter (fun k => (db.liveAt now k).isSome)).length : Int) := by
  induction keys with
  | nil =>
    intro db n
    simp [existsLoop]
  | cons key keys ih =>
    intro db n
    have hview : ∀ k, ((db.GetRecord now key).2.liveAt now k).isSome
        = (db.liveAt now k).isSome := fun k => by
      rw [Database.liveAt_GetRecord]
    cases hg : db.GetRecord now key with
    | mk found db' =>
      have h1 : db.liveAt now key = found := by
        rw [← Database.GetRecord_fst, hg]
      rw [hg] at hview
      cases found with
      | none =>
        simp only [existsLoop, hg]
        rw [ih db' n]
        simp [List.filter, h1, hview]
      | some r =>
        simp only [existsLoop, hg]
        rw [ih db' (n + 1)]
        simp [List.filter, h1, hview]
        ring

theorem Record.not_live_of_expired (r : Record) (now : Int) (httl : 0 < r.TTL)
    (hexp : r.Timestamp + r.TTL ≤ now) : r.live now = false := by
  unfold Record.live
  simp
  omega

theorem Database.liveAt_expired (db : Database) (now : Int) (key : String) (r : Record)
    (hfind : db.find key = some r) (httl : 0 < r.TTL)
    (hexp : r.Timestamp + r.TTL ≤ now) : db.liveAt now key = none := by
  rw [Database.liveAt_eq, hfind]
  simp [Record.not_live_of_expired r now httl hexp]

/-- C2: a record with `ttl > 0` that is still stored at `k` (no eviction has run) is
observed as absent from the time `createdAt + ttl` on: `Exists` counts only the other
listed keys (so `Exists [k]` is 0), `Type k` is "none" and `TTL k` is -2. -/
theorem expired_key_observed_absent (server : Server) (conn : Conn) (db : Database)
    (k : String) (r : Record) (now : Int)
    (h : server.GetDatabase conn.Database = .ok db)
    (hfind : db.find k = some r) (httl : 0 < r.TTL)
    (hexp : r.Timestamp + r.TTL ≤ now) :
    (∀ keys : List String,
      (server.Exists conn keys now).1
        = .ok (.integer ((keys.filter
            (fun k' => decide (k' ≠ k) && (db.liveAt now k').isSome)).length)))
    ∧ (server.Exists conn [k] now).1 = .ok (.integer 0)
    ∧ (server.Type conn k now).1 = .ok (.string "none")
    ∧ (∀ now' : Int, (server.TTL conn k now now').1 = .ok (.integer (-2))) := by
  have hnone : db.liveAt now k = none :=
    Database.liveAt_expired db now k r hfind httl hexp
  have hget : (db.GetRecord now k).1 = none := hnone
  have hcount : ∀ keys : List String,
      (server.Exists conn keys now).1
        = .ok (.integer ((keys.filter
            (fun k' => decide (k' ≠ k) && (db.liveAt now k').isSome)).length)) := by
    intro keys
    simp only [Server.Exists, h]
    rw [existsLoop_count now keys db 0, zero_add]
    congr 4
    apply List.filter_congr
    intro k' _
    by_cases hk : k' = k
    · subst hk
      simp [hnone]
    · simp [hk]
  refine ⟨hcount, ?_, ?_, ?_⟩
  · rw [hcount [k]]
    simp
  · simp only [Server.Type, h]
    cases hg : db.GetRecord now k with
    | mk found db' =>
      rw [hg] at hget
      simp only at hget
      subst hget
      rfl
  · intro now'
    simp only [Server.TTL, h]
    cases hg : db.GetRecord now k with
    | mk found db' =>
      rw [hg] at hget
      simp only at hget
      subst hget
      rfl

/-- C2 at a concrete keyspace: `e` was created at 0 with a TTL of 5 s and is looked up
at 5 s. -/
theorem expired_key_observed_absent_witness :
    sampleServer.GetDatabase (Conn.mk 0).Database = .ok sampleDb
    ∧ sampleDb.find "e" = some ⟨.str "v", 0, 5000000000⟩
    ∧ (0 : Int) < (Record.mk (.str "v") 0 5000000000).TTL
    ∧ (Record.mk (.str "v") 0 5000000000).Timestamp
        + (Record.mk (.str "v") 0 5000000000).TTL ≤ 5000000000
    ∧ ((∀ keys : List String,
        (sampleServer.Exists ⟨0⟩ keys 5000000000).1
          = .ok (.integer ((keys.filter
              (fun k' => decide (k' ≠ "e")
                && (sampleDb.liveAt 5000000000 k').isSome)).length)))
      ∧ (sampleServer.Exists ⟨0⟩ ["e"] 5000000000).1 = .ok (.integer 0)
      ∧ (sampleServer.Type ⟨0⟩ "e" 5000000000).1 = .ok (.string "none")
      ∧ (∀ now' : Int,
          (sampleServer.TTL ⟨0⟩ "e" 5000000000 now').1 = .ok (.integer (-2)))) :=
  ⟨rfl, by decide, by decide, by decide,
    expired_key_observed_absent sampleServer ⟨0⟩ sampleDb "e" ⟨.str "v", 0, 5000000000⟩
      5000000000 rfl (by decide) (by decide) (by decide)⟩

/-! ## Expire and TTL -/

/-- C3, the code at a failing input: `a` was created at time 0; `Expire` at 4 s with the
deadline 10 s returns 1 and stores the TTL 6 s next to the unchanged timestamp 0, so
`TTL` at 5 s returns 1, not the 5 seconds that remain until the deadline. -/
theorem Expire_TTL_drift :
    (sampleServer.Expire ⟨0⟩ "a" ⟨10000000000, false, false, false, false⟩
        4000000000 4000000000).1 = .ok (.integer 1)
    ∧ ((sampleServer.Expire ⟨0⟩ "a" ⟨10000000000, false, false, false, false⟩
        4000000000 4000000000).2.TTL ⟨0⟩ "a" 5000000000 5000000000).1
        = .ok (.integer 1)
    ∧ ((10000000000 : Int) - 5000000000) / Second = 5 := by
  refine ⟨by decide, by decide, by decide⟩

theorem Time.Sub_neg_iff (t u : Int) : Time.Sub t u < 0 ↔ t - u < 0 := by
  unfold Time.Sub maxDuration minDuration
  split_ifs <;> omega

theorem Time.Sub_exact (t u : Int) (hlo : minDuration ≤ t - u) (hhi : t - u ≤ maxDuration) :
    Time.Sub t u = t - u := by
  unfold Time.Sub
  unfold maxDuration minDuration at *
  split_ifs <;> omega

/-- C4: the result of `TTL` on a keyspace that resolves.  It is -2 when the key has no
live record, -1 when the live record has a zero or negative ttl, -2 when the remaining
duration `createdAt + ttl - now` is negative, and otherwise the whole seconds of the
remaining duration; the duration is the exact difference wherever that is a
`time.Duration`.  The result is -1, -2 or not negative. -/
theorem TTL_result (server : Server) (conn : Conn) (db : Database) (key : String)
    (tLookup now : Int) (h : server.GetDatabase conn.Database = .ok db) :
    (db.liveAt tLookup key = none →
      (server.TTL conn key tLookup now).1 = .ok (.integer (-2)))
    ∧ (∀ r, db.liveAt tLookup key = some r → r.TTL ≤ 0 →
      (server.TTL conn key tLookup now).1 = .ok (.integer (-1)))
    ∧ (∀ r, db.liveAt tLookup key = some r → 0 < r.TTL →
      r.Timestamp + r.TTL - now < 0 →
      (server.TTL conn key tLookup now).1 = .ok (.integer (-2)))
    ∧ (∀ r, db.liveAt tLookup key = some r → 0 < r.TTL →
      0 ≤ r.Timestamp + r.TTL - now →
      (server.TTL conn key tLookup now).1
        = .ok (.integer (Time.Sub (r.Timestamp + r.TTL) now / Second)))
    ∧ (∀ r, db.liveAt tLookup key = some r → 0 < r.TTL →
      0 ≤ r.Timestamp + r.TTL - now → r.Timestamp + r.TTL - now ≤ maxDuration →
      (server.TTL conn key tLookup now).1
        = .ok (.integer ((r.Timestamp + r.TTL - now) / Second)))
    ∧ (∃ n : Int, (server.TTL conn key tLookup now).1 = .ok (.integer n)
        ∧ (n = -1 ∨ n = -2 ∨ 0 ≤ n)) := by
  have hsec : (0 : Int) ≤ Second := by decide
  have key4 : ∀ r, db.liveAt tLookup key = some r → 0 < r.TTL →
      0 ≤ r.Timestamp + r.TTL - now →
      (server.TTL conn key tLookup now).1
        = .ok (.integer (Time.Sub (r.Timestamp + r.TTL) now / Second)) := by
    intro r hr httl hrem
    simp only [Server.TTL, h]
    cases hg : db.GetRecord tLookup key with
    | mk found db' =>
      have hfound : found = some r := by
        rw [← hr, ← Database.GetRecord_fst, hg]
      subst hfound
      have h1 : ¬ r.TTL ≤ 0 := by omega
      have h2 : ¬ Time.Sub (Time.Add r.Timestamp r.TTL) now < 0 := by
        rw [Time.Sub_neg_iff]
        unfold Time.Add
        omega
      simp only [h1, h2, if_false]
      rw [Int.tdiv_eq_ediv (by omega) hsec]
      rfl
  refine ⟨?_, ?_, ?_, key4, ?_, ?_⟩
  · intro hnone
    simp only [Server.TTL, h]
    cases hg : db.GetRecord tLookup key with
    | mk found db' =>
      have hfound : found = none := by
        rw [← hnone, ← Database.GetRecord_fst, hg]
      subst hfound
      rfl
  · intro r hr httl
    simp only [Server.TTL, h]
    cases hg : db.GetRecord tLookup key with
    | mk found db' =>
      have hfound : found = some r := by
        rw [← hr, ← Database.GetRecord_fst, hg]
      subst hfound
      simp [httl, ttlRecordNotSet]
  · intro r hr httl hrem
    simp only [Server.TTL, h]
    cases hg : db.GetRecord tLookup key with
    | mk found db' =>
      have hfound : found = some r := by
        rw [← hr, ← Database.GetRecord_fst, hg]
      subst hfound
      have h1 : ¬ r.TTL ≤ 0 := by omega
      have h2 : Time.Sub (Time.Add r.Timestamp r.TTL) now < 0 := by
        rw [Time.Sub_neg_iff]
        unfold Time.Add
        omega
      simp [h1, h2, ttlRecordNotFound]
  · intro r hr httl hrem hmax
    rw [key4 r hr httl hrem, Time.Sub_exact _ _ (by unfold minDuration; omega) hmax]
  · cases hl : db.liveAt tLookup key with
    | none =>
      refine ⟨-2, ?_, Or.inr (Or.inl rfl)⟩
      simp only [Server.TTL, h]
      cases hg : db.GetRecord tLookup key with
      | mk found db' =>
        have hfound : found = none := by
          rw [← hl, ← Database.GetRecord_fst, hg]
        subst hfound
        rfl
    | some r =>
      simp only [Server.TTL, h]
      cases hg : db.GetRecord tLookup key with
      | mk found db' =>
        have hfound : found = some r := by
          rw [← hl, ← Database.GetRecord_fst, hg]
        subst hfound
        by_cases h1 : r.TTL ≤ 0
        · exact ⟨-1, by simp [h1, ttlRecordNotSet], Or.inl rfl⟩
        · by_cases h2 : Time.Sub (Time.Add r.Timestamp r.TTL) now < 0
          · exact ⟨-2, by simp [h1, h2, ttlRecordNotFound], Or.inr (Or.inl rfl)⟩
          · refine ⟨Int.tdiv (Time.Sub (Time.Add r.Timestamp r.TTL) now) Second,
              by simp [h1, h2], Or.inr (Or.inr ?_)⟩
            exact Int.tdiv_nonneg (by omega) hsec

/-- C4 at a concrete keyspace: `e` (created at 0, TTL 5 s) queried at 1.5 s has 3 whole
seconds left. -/
theorem TTL_result_witness :
    sampleServer.GetDatabase (Conn.mk 0).Database = .ok sampleDb
    ∧ sampleDb.liveAt 1500000000 "e" = some ⟨.str "v", 0, 5000000000⟩
    ∧ (0 : Int) < (Record.mk (.str "v") 0 5000000000).TTL
    ∧ (0 : Int) ≤ (Record.mk (.str "v") 0 5000000000).Timestamp
        + (Record.mk (.str "v") 0 5000000000).TTL - 1500000000
    ∧ (Record.mk (.str "v") 0 5000000000).Timestamp
        + (Record.mk (.str "v") 0 5000000000).TTL - 1500000000 ≤ maxDuration
    ∧ (sampleServer.TTL ⟨0⟩ "e" 1500000000 1500000000).1
        = .ok (.integer (((Record.mk (.str "v") 0 5000000000).Timestamp
            + (Record.mk (.str "v") 0 5000000000).TTL - 1500000000) / Second)) :=
  ⟨rfl, by decide, by decide, by decide, by decide,
    (TTL_result sampleServer ⟨0⟩ sampleDb "e" 1500000000 1500000000 rfl).2.2.2.2.1
      ⟨.str "v", 0, 5000000000⟩ (by decide) (by decide) (by decide) (by decide)⟩

/-! ## Translation of a glob -/

theorem replaceLoop_single (old : Char) (new : List Char) (l : List Char) :
    replaceLoop [old] new 0 l = l.flatMap (fun c => if c = old then new else [c]) := by
  induction l with
  | nil => rfl
  | cons c t ih =>
    by_cases hc : c = old
    · subst hc
      simp [replaceLoop, List.isPrefixOf, ih]
    · have hc' : ¬ old = c := fun e => hc e.symm
      simp [replaceLoop, List.isPrefixOf, ih, hc, hc']

theorem re2Pattern_data (pattern : String) :
    (re2Pattern pattern).data = pattern.data.flatMap translateChar := by
  have h1 : ("*" : String).data = ['*'] := rfl
  have h2 : ("?" : String).data = ['?'] := rfl
  have h3 : (".*" : String).data = ['.', '*'] := rfl
  have h4 : ("." : String).data = ['.'] := rfl
  simp only [re2Pattern, repstrs, List.foldl, ReplaceAll, h1, h2, h3, h4,
    replaceLoop_single]
  generalize pattern.data = l
  induction l with
  | nil => rfl
  | cons c t ih =>
    simp only [List.flatMap_cons, List.flatMap_append, ih]
    congr 1
    by_cases hs : c = '*'
    · subst hs
      decide
    · by_cases hq : c = '?'
      · subst hq
        decide
      · simp [translateChar, hs, hq]

theorem parseLoop_glob (l : List Char) (hl : ∀ c ∈ l, GlobChar c) :
    ∀ (stack : List re.Item) (lastRepeat : Bool),
      re.parseLoop stack lastRepeat (l.flatMap translateChar)
        = .ok (stack.reverse ++ l.map globItem) := by
  induction l with
  | nil =>
    intro stack lastRepeat
    simp [re.parseLoop]
  | cons c t ih =>
    intro stack lastRepeat
    have ht : ∀ d ∈ t, GlobChar d := fun d hd => hl d (List.mem_cons_of_mem _ hd)
    have hc : GlobChar c := hl c (List.mem_cons_self _ _)
    have ih' := ih ht
    rw [List.flatMap_cons]
    generalize t.flatMap translateChar = rest at ih' ⊢
    by_cases hs : c = '*'
    · subst hs
      simp [translateChar, re.parseLoop, globItem, ih']
    · by_cases hq : c = '?'
      · subst hq
        simp [translateChar, re.parseLoop, globItem, ih']
      · have hplain : c ∉ metaChars := by
          rcases hc with h | h | h
          · exact absurd h hs
          · exact absurd h hq
          · exact h
        simp only [metaChars, List.mem_cons, List.mem_singleton, List.not_mem_nil,
          not_or, or_false] at hplain
        obtain ⟨h1, h2, h3, h4, h5, h6, h7, h8, h9, h10, h11, h12, h13, h14⟩ := hplain
        simp [translateChar, re.parseLoop, globItem, ih', hs, hq, h1, h2, h3, h6,
          h7, h8, h9, h10, h11, h12, h13, h14]

theorem MustCompile_glob (pattern : String) (hp : ∀ c ∈ pattern.data, GlobChar c) :
    MustCompile pattern = .ok (pattern.data.map globItem) := by
  unfold MustCompile re.Compile
  rw [re2Pattern_data, parseLoop_glob pattern.data hp]
  rfl

/-! ## Matching -/

theorem starLoop_iff (a : re.Atom) (k : List Char → Bool) (s : List Char) :
    re.starLoop a k s = true
      ↔ ∃ u v, s = u ++ v ∧ (∀ c ∈ u, a.accepts c = true) ∧ k v = true := by
  induction s with
  | nil =>
    simp only [re.starLoop]
    constructor
    · intro h
      exact ⟨[], [], rfl, by simp, h⟩
    · rintro ⟨u, v, huv, _, hk⟩
      have hv : v = [] := by
        cases u with
        | nil => simpa using huv.symm
        | cons x xs => simp at huv
      rw [← hv]
      exact hk
  | cons c cs ih =>
    simp only [re.starLoop, Bool.or_eq_true, Bool.and_eq_true, ih]
    constructor
    · rintro (h | ⟨hc, u, v, huv, hu, hk⟩)
      · exact ⟨[], c :: cs, rfl, by simp, h⟩
      · refine ⟨c :: u, v, by simp [huv], ?_, hk⟩
        intro d hd
        rcases List.mem_cons.mp hd with h | h
        · rw [h]
          exact hc
        · exact hu d h
    · rintro ⟨u, v, huv, hu, hk⟩
      cases u with
      | nil =>
        left
        simp only [List.nil_append] at huv
        rw [huv]
        exact hk
      | cons x xs =>
        right
        simp only [List.cons_append, List.cons.injEq] at huv
        obtain ⟨hx, hcs⟩ := huv
        refine ⟨?_, xs, v, hcs, fun d hd => hu d (List.mem_cons_of_mem _ hd), hk⟩
        rw [hx]
        exact hu x (List.mem_cons_self _ _)

theorem matchHere_glob (l : List Char) :
    ∀ s : List Char,
      re.matchHere (l.map globItem) s = true
        ↔ ∃ m b, s = m ++ b ∧ GlobMatches notNewline l m := by
  induction l with
  | nil =>
    intro s
    simp only [List.map_nil, re.matchHere, GlobMatches, true_iff]
    exact ⟨[], s, rfl, rfl⟩
  | cons p ps ih =>
    intro s
    by_cases hs : p = '*'
    · subst hs
      simp only [List.map_cons, globItem, if_true, re.matchHere, starLoop_iff, GlobMatches]
      constructor
      · rintro ⟨u, v, huv, hu, hk⟩
        obtain ⟨m, b, hmb, hg⟩ := (ih v).mp hk
        refine ⟨u ++ m, b, by simp [huv, hmb], u, m, rfl, ?_, hg⟩
        intro c hc
        simpa [re.Atom.accepts, notNewline] using hu c hc
      · rintro ⟨m, b, hmb, u, v, huv, hu, hg⟩
        refine ⟨u, v ++ b, by simp [hmb, huv], ?_, (ih (v ++ b)).mpr ⟨v, b, rfl, hg⟩⟩
        intro c hc
        simpa [re.Atom.accepts, notNewline] using hu c hc
    · by_cases hq : p = '?'
      · subst hq
        simp only [List.map_cons, globItem, if_true, re.matchHere, GlobMatches]
        cases s with
        | nil =>
          simp only [Bool.false_eq_true, false_iff]
          rintro ⟨m, b, hmb, c, v, hm, _⟩
          rw [hm] at hmb
          simp at hmb
        | cons c cs =>
          simp only [Bool.and_eq_true, ih cs]
          constructor
          · rintro ⟨hc, m, b, hmb, hg⟩
            exact ⟨c :: m, b, by simp [hmb], c, m, rfl,
              by simpa [re.Atom.accepts, notNewline] using hc, hg⟩
          · rintro ⟨m, b, hmb, d, v, hm, hd, hg⟩
            rw [hm] at hmb
            simp only [List.cons_append, List.cons.injEq] at hmb
            obtain ⟨hcd, hcs⟩ := hmb
            refine ⟨?_, v, b, hcs, hg⟩
            rw [hcd]
            simpa [re.Atom.accepts, notNewline] using hd
      · simp only [List.map_cons, globItem, hs, hq, if_false, re.matchHere, GlobMatches]
        cases s with
        | nil =>
          simp only [Bool.false_eq_true, false_iff]
          rintro ⟨m, b, hmb, v, hm, _⟩
          rw [hm] at hmb
          simp at hmb
        | cons c cs =>
          simp only [Bool.and_eq_true, ih cs]
          constructor
          · rintro ⟨hc, m, b, hmb, hg⟩
            have hcp : c = p := by simpa [re.Atom.accepts] using hc
            exact ⟨p :: m, b, by simp [hmb, hcp], m, rfl, hg⟩
          · rintro ⟨m, b, hmb, v, hm, hg⟩
            rw [hm] at hmb
            simp only [List.cons_append, List.cons.injEq] at hmb
            obtain ⟨hcd, hcs⟩ := hmb
            exact ⟨by simp [re.Atom.accepts, hcd], v, b, hcs, hg⟩

theorem matchFrom_iff (r : re.Regexp) (s : List Char) :
    re.matchFrom r s = true ↔ ∃ a t, s = a ++ t ∧ re.matchHere r t = true := by
  induction s with
  | nil =>
    simp only [re.matchFrom]
    constructor
    · intro h
      exact ⟨[], [], rfl, h⟩
    · rintro ⟨a, t, hat, h⟩
      have ht : t = [] := by
        cases a with
        | nil => simpa using hat.symm
        | cons x xs => simp at hat
      rw [← ht]
      exact h
  | cons c cs ih =>
    simp only [re.matchFrom, Bool.or_eq_true, ih]
    constructor
    · rintro (h | ⟨a, t, hat, h⟩)
      · exact ⟨[], c :: cs, rfl, h⟩
      · exact ⟨c :: a, t, by simp [hat], h⟩
    · rintro ⟨a, t, hat, h⟩
      cases a with
      | nil =>
        left
        simp only [List.nil_append] at hat
        rw [hat]
        exact h
      | cons x xs =>
        right
        simp only [List.cons_append, List.cons.injEq] at hat
        exact ⟨xs, t, hat.2, h⟩

/-- What the compiled glob decides: some contiguous part of the key matches the glob,
with wildcards standing for characters other than the newline. -/
theorem MatchString_glob (l : List Char) (key : String) :
    re.MatchString (l.map globItem) key = true
      ↔ ∃ a m b, key.data = a ++ m ++ b ∧ GlobMatches notNewline l m := by
  unfold re.MatchString
  rw [matchFrom_iff]
  constructor
  · rintro ⟨a, t, hat, h⟩
    obtain ⟨m, b, hmb, hg⟩ := (matchHere_glob l t).mp h
    exact ⟨a, m, b, by simp [hat, hmb], hg⟩
  · rintro ⟨a, m, b, hk, hg⟩
    exact ⟨a, m ++ b, by simp [hk], (matchHere_glob l (m ++ b)).mpr ⟨m, b, rfl, hg⟩⟩

theorem GlobMatches_append (wild : Char → Bool) (p1 p2 : List Char) :
    ∀ s : List Char,
      GlobMatches wild (p1 ++ p2) s
        ↔ ∃ s1 s2, s = s1 ++ s2 ∧ GlobMatches wild p1 s1 ∧ GlobMatches wild p2 s2 := by
  induction p1 with
  | nil =>
    intro s
    simp only [List.nil_append, GlobMatches]
    constructor
    · intro h
      exact ⟨[], s, rfl, rfl, h⟩
    · rintro ⟨s1, s2, hs, h1, h2⟩
      rw [hs, h1]
      exact h2
  | cons p ps ih =>
    intro s
    by_cases hs : p = '*'
    · subst hs
      simp only [List.cons_append, GlobMatches, if_true]
      constructor
      · rintro ⟨u, v, huv, hu, hg⟩
        obtain ⟨s1, s2, hv, h1, h2⟩ := (ih v).mp hg
        exact ⟨u ++ s1, s2, by simp [huv, hv], ⟨u, s1, rfl, hu, h1⟩, h2⟩
      · rintro ⟨s1, s2, hs12, ⟨u, v, huv, hu, h1⟩, h2⟩
        exact ⟨u, v ++ s2, by simp [hs12, huv], hu, (ih (v ++ s2)).mpr ⟨v, s2, rfl, h1, h2⟩⟩
    · by_cases hq : p = '?'
      · subst hq
        simp only [List.cons_append, GlobMatches, if_true]
        constructor
        · rintro ⟨c, v, hcv, hc, hg⟩
          obtain ⟨s1, s2, hv, h1, h2⟩ := (ih v).mp hg
          exact ⟨c :: s1, s2, by simp [hcv, hv], ⟨c, s1, rfl, hc, h1⟩, h2⟩
        · rintro ⟨s1, s2, hs12, ⟨c, v, hcv, hc, h1⟩, h2⟩
          exact ⟨c, v ++ s2, by simp [hs12, hcv], hc, (ih (v ++ s2)).mpr ⟨v, s2, rfl, h1, h2⟩⟩
      · simp only [List.cons_append, GlobMatches, hs, hq, if_false]
        constructor
        · rintro ⟨v, hpv, hg⟩
          obtain ⟨s1, s2, hv, h1, h2⟩ := (ih v).mp hg
          exact ⟨p :: s1, s2, by simp [hpv, hv], ⟨s1, rfl, h1⟩, h2⟩
        · rintro ⟨s1, s2, hs12, ⟨v, hpv, h1⟩, h2⟩
          exact ⟨v ++ s2, by simp [hs12, hpv], (ih (v ++ s2)).mpr ⟨v, s2, rfl, h1, h2⟩⟩

theorem translateChar_dot (c : Char) :
    translateChar (if c = '.' then '?' else c) = translateChar c := by
  by_cases h : c = '.'
  · subst h
    decide
  · simp [h]

/-! ## The glob matcher -/

/-- C5, the claim at a failing input: the compiled `a?c` accepts the key `xabc`, which
as a whole does not match the glob. -/
theorem glob_accepts_key_containing_match :
    (∀ c ∈ ("a?c" : String).data, GlobChar c)
    ∧ ∃ r, MustCompile "a?c" = .ok r ∧ re.MatchString r "xabc" = true
      ∧ ¬ GlobMatches anyChar ("a?c" : String).data ("xabc" : String).data := by
  refine ⟨by decide, _, rfl, by decide, ?_⟩
  have hd : ("xabc" : String).data = ['x', 'a', 'b', 'c'] := rfl
  have hp : ("a?c" : String).data = ['a', '?', 'c'] := rfl
  rw [hd, hp]
  simp [GlobMatches]

/-- C5, amended: for a pattern built from `*`, `?` and characters without special
meaning in the engine, `MustCompile` succeeds and the compiled matcher accepts a key
iff some contiguous part of the key matches the glob, where `*` stands for any sequence
of characters other than newline and `?` for one character other than newline.  The
examples of the specification hold. -/
theorem glob_accepts_iff_part_matches :
    (∀ pattern : String, (∀ c ∈ pattern.data, GlobChar c) →
      ∃ r, MustCompile pattern = .ok r
        ∧ ∀ key : String,
            (re.MatchString r key = true
              ↔ ∃ a m b, key.data = a ++ m ++ b
                  ∧ GlobMatches notNewline pattern.data m))
    ∧ (∃ r, MustCompile "user:*" = .ok r ∧ re.MatchString r "user:1" = true
        ∧ re.MatchString r "user:" = true ∧ re.MatchString r "users:1" = false)
    ∧ (∃ r, MustCompile "a?c" = .ok r ∧ re.MatchString r "abc" = true
        ∧ re.MatchString r "ac" = false ∧ re.MatchString r "abbc" = false) := by
  refine ⟨?_, ⟨_, rfl, by decide, by decide, by decide⟩,
    ⟨_, rfl, by decide, by decide, by decide⟩⟩
  intro pattern hp
  exact ⟨_, MustCompile_glob pattern hp, fun key => MatchString_glob pattern.data key⟩

/-- C5, amended, at the pattern `user:*`. -/
theorem glob_accepts_iff_part_matches_witness :
    (∀ c ∈ ("user:*" : String).data, GlobChar c)
    ∧ ∃ r, MustCompile "user:*" = .ok r
        ∧ ∀ key : String,
            (re.MatchString r key = true
              ↔ ∃ a m b, key.data = a ++ m ++ b
                  ∧ GlobMatches notNewline ("user:*" : String).data m) :=
  ⟨by decide, glob_accepts_iff_part_matches.1 "user:*" (by decide)⟩

/-- C6, the claim at a failing input: the `.` of the pattern `a.c` is not matched
literally, the compiled pattern accepts the key `abc`. -/
theorem dot_is_not_literal :
    ∃ r, MustCompile "a.c" = .ok r ∧ re.MatchString r "abc" = true :=
  ⟨_, rfl, by decide⟩

/-- C6, amended: in a pattern built from `*`, `?` and characters without special meaning
in the engine, a character other than `*` and `?` matches only the identical character
of the key: the key is accepted iff it has an occurrence of that character with a match
of the pattern before it ending there and a match of the pattern after it starting
there.  Characters with a special meaning in the engine are passed on unescaped: a `.`
behaves as the wildcard `?`. -/
theorem plain_characters_match_themselves :
    (∀ (p1 p2 : List Char) (c : Char),
      (∀ d ∈ p1, GlobChar d) → (∀ d ∈ p2, GlobChar d) → c ∉ metaChars →
      ∃ r, MustCompile ⟨p1 ++ c :: p2⟩ = .ok r
        ∧ ∀ key : String,
            (re.MatchString r key = true
              ↔ ∃ a m1 m2 b, key.data = a ++ m1 ++ c :: m2 ++ b
                  ∧ GlobMatches notNewline p1 m1 ∧ GlobMatches notNewline p2 m2))
    ∧ (∀ p : List Char,
        MustCompile ⟨p.map (fun c => if c = '.' then '?' else c)⟩ = MustCompile ⟨p⟩) := by
  constructor
  · intro p1 p2 c h1 h2 hc
    have hall : ∀ d ∈ (String.mk (p1 ++ c :: p2)).data, GlobChar d := by
      intro d hd
      rcases List.mem_append.mp hd with h | h
      · exact h1 d h
      · rcases List.mem_cons.mp h with h | h
        · rw [h]
          exact Or.inr (Or.inr hc)
        · exact h2 d h
    have hs : c ≠ '*' := by
      intro e
      subst e
      exact hc (by decide)
    have hq : c ≠ '?' := by
      intro e
      subst e
      exact hc (by decide)
    refine ⟨_, MustCompile_glob _ hall, fun key => ?_⟩
    rw [MatchString_glob]
    constructor
    · rintro ⟨a, m, b, hk, hg⟩
      obtain ⟨m1, s2, hm, hg1, hg2⟩ := (GlobMatches_append notNewline p1 (c :: p2) m).mp hg
      simp only [GlobMatches, hs, hq, if_false] at hg2
      obtain ⟨m2, hs2, hg2⟩ := hg2
      exact ⟨a, m1, m2, b, by simp [hk, hm, hs2], hg1, hg2⟩
    · rintro ⟨a, m1, m2, b, hk, hg1, hg2⟩
      refine ⟨a, m1 ++ c :: m2, b, by simp [hk], ?_⟩
      refine (GlobMatches_append notNewline p1 (c :: p2) _).mpr ⟨m1, c :: m2, rfl, hg1, ?_⟩
      simp only [GlobMatches, hs, hq, if_false]
      exact ⟨m2, rfl, hg2⟩
  · intro p
    unfold MustCompile re.Compile
    rw [re2Pattern_data, re2Pattern_data]
    congr 1
    simp only [List.flatMap_map]
    congr 1
    funext c
    exact translateChar_dot c

/-- C6, amended, at the pattern `a:c` split around its `:`. -/
theorem plain_characters_match_themselves_witness :
    (∀ d ∈ ['a'], GlobChar d) ∧ (∀ d ∈ ['c'], GlobChar d) ∧ ':' ∉ metaChars
    ∧ ∃ r, MustCompile ⟨['a'] ++ ':' :: ['c']⟩ = .ok r
        ∧ ∀ key : String,
            (re.MatchString r key = true
              ↔ ∃ a m1 m2 b, key.data = a ++ m1 ++ ':' :: m2 ++ b
                  ∧ GlobMatches notNewline ['a'] m1 ∧ GlobMatches notNewline ['c'] m2) :=
  ⟨by decide, by decide, by decide,
    plain_characters_match_themselves.1 ['a'] ['c'] ':' (by decide) (by decide) (by decide)⟩

/-! ## Keys -/

/-- C7, the claim at a failing input: for the patterns `(` and `[`, which do not
compile, `Keys` panics; it returns no error value to its caller. -/
theorem Keys_panics_on_open_paren :
    sampleServer.Keys ⟨0⟩ "(" = some (.panic, sampleServer)
    ∧ sampleServer.Keys ⟨0⟩ "[" = some (.panic, sampleServer)
    ∧ ∀ (e : Error) (s : Server), sampleServer.Keys ⟨0⟩ "(" ≠ some (.err e, s) := by
  refine ⟨rfl, rfl, ?_⟩
  intro e s h
  have h' : sampleServer.Keys ⟨0⟩ "(" = some (.panic, sampleServer) := rfl
  rw [h'] at h
  simp at h

/-- C7, amended: on a keyspace that resolves, for every pattern whose translation does
not compile `MustCompile` panics and so does `Keys`: the caller gets neither a result
nor an error, and the server state is left as it was. -/
theorem Keys_panics_on_invalid_pattern (server : Server) (conn : Conn) (db : Database)
    (pattern : String) (h : server.GetDatabase conn.Database = .ok db)
    (hbad : MustCompile pattern = .syntaxError) :
    server.Keys conn pattern = some (.panic, server) := by
  simp only [Server.Keys, h, hbad]

/-- C7, amended, at the pattern `[`. -/
theorem Keys_panics_on_invalid_pattern_witness :
    sampleServer.GetDatabase (Conn.mk 0).Database = .ok sampleDb
    ∧ MustCompile "[" = .syntaxError
    ∧ sampleServer.Keys ⟨0⟩ "[" = some (.panic, sampleServer) :=
  ⟨rfl, rfl, Keys_panics_on_invalid_pattern sampleServer ⟨0⟩ sampleDb "[" rfl rfl⟩

/-! ## Rename -/

theorem Database.liveAt_eq_some (db : Database) (t : Int) (key : String) (r : Record) :
    db.liveAt t key = some r ↔ db.find key = some r ∧ r.live t = true := by
  rw [Database.liveAt_eq]
  cases hf : db.find key with
  | none => simp
  | some r' =>
    by_cases hl : r'.live t = true
    · simp only [Option.some_bind, hl, if_true, Option.some.injEq]
      constructor
      · intro e
        subst e
        exact ⟨rfl, hl⟩
      · exact fun e => e.1
    · simp only [Option.some_bind, hl, if_false, Option.some.injEq, false_iff, not_and,
        reduceCtorEq]
      intro e
      subst e
      exact hl

theorem Database.GetRecord_snd_find_ne (db : Database) (t : Int) (key other : String)
    (h : other ≠ key) : (db.GetRecord t key).2.find other = db.find other := by
  unfold Database.GetRecord
  cases hf : db.find key with
  | none => rfl
  | some r =>
    by_cases hl : r.live t = true
    · simp [hl]
    · have hl' : r.live t = false := by simpa using hl
      simp only [hl', Bool.false_eq_true, if_false]
      exact Database.find_erase_ne db key other h

theorem Database.GetRecord_of_live (db : Database) (t : Int) (key : String) (r : Record)
    (h : db.liveAt t key = some r) : db.GetRecord t key = (some r, db) := by
  obtain ⟨hf, hl⟩ := (Database.liveAt_eq_some db t key r).mp h
  simp [Database.GetRecord, hf, hl]

theorem Database.RenameRecord_of_live (db : Database) (t : Int) (key newkey : String)
    (r : Record) (hf : db.find key = some r) (hl : r.live t = true) :
    db.RenameRecord t key newkey = .ok ((db.insert newkey r).erase key) := by
  simp [Database.RenameRecord, hf, hl]

theorem Database.RenameRecord_of_not_live (db : Database) (t : Int) (key newkey : String)
    (h : db.liveAt t key = none) :
    db.RenameRecord t key newkey = .error .keyNotFound := by
  rw [Database.liveAt_eq] at h
  unfold Database.RenameRecord
  cases hf : db.find key with
  | none => rfl
  | some r =>
    by_cases hl : r.live t = true
    · simp [hf, hl] at h
    · simp [hl]

/-- C8: on a keyspace that resolves and in which `k1` has the live record `R`, `Rename`
of `k1` to a different key `k2` returns, with no error, the OK status without `NX` and
the integer 1 with `NX` when `k2` has no live record; afterwards `k1` is absent, `k2`
maps to `R`, and every other key maps to the record it had. -/
theorem Rename_moves_record (server : Server) (conn : Conn) (db : Database)
    (k1 k2 : String) (R : Record) (opt : RenameOption) (now : Int)
    (h : server.GetDatabase conn.Database = .ok db) (hne : k1 ≠ k2)
    (hlive : db.liveAt now k1 = some R)
    (hnx : opt.NX = true → db.liveAt now k2 = none) :
    ∃ db' : Database,
      server.Rename conn k1 k2 opt now
        = (.ok (if opt.NX then .integer 1 else .ok), server.store conn.Database db')
      ∧ (server.Rename conn k1 k2 opt now).2.GetDatabase conn.Database = .ok db'
      ∧ db'.find k1 = none
      ∧ db'.find k2 = some R
      ∧ (∀ k, k ≠ k1 → k ≠ k2 → db'.find k = db.find k) := by
  obtain ⟨hf, hl⟩ := (Database.liveAt_eq_some db now k1 R).mp hlive
  have hmove : ∀ db1 : Database, db1.find k1 = some R →
      (∀ k, k ≠ k2 → db1.find k = db.find k) →
      renameMove server conn db1 k1 k2 opt now
        = (.ok (if opt.NX then .integer 1 else .ok),
            server.store conn.Database ((db1.insert k2 R).erase k1))
      ∧ ((db1.insert k2 R).erase k1).find k1 = none
      ∧ ((db1.insert k2 R).erase k1).find k2 = some R
      ∧ (∀ k, k ≠ k1 → k ≠ k2 →
          ((db1.insert k2 R).erase k1).find k = db.find k) := by
    intro db1 hf1 hsame
    refine ⟨?_, ?_, ?_, ?_⟩
    · simp only [renameMove, Database.RenameRecord_of_live db1 now k1 k2 R hf1 hl]
      cases opt.NX <;> rfl
    · exact Database.find_erase_self _ k1
    · rw [Database.find_erase_ne _ k1 k2 (fun e => hne e.symm),
        Database.find_insert_self]
    · intro k hk1 hk2
      rw [Database.find_erase_ne _ k1 k hk1, Database.find_insert_ne _ k2 k R hk2,
        hsame k hk2]
  cases hopt : opt.NX with
  | false =>
    obtain ⟨e1, e2, e3, e4⟩ := hmove db hf (fun _ _ => rfl)
    refine ⟨(db.insert k2 R).erase k1, ?_, ?_, e2, e3, e4⟩
    · simp only [Server.Rename, h, hopt, Bool.false_eq_true, if_false]
      rw [e1, hopt]
      rfl
    · simp only [Server.Rename, h, hopt, Bool.false_eq_true, if_false]
      rw [e1]
      exact Server.GetDatabase_store server conn.Database db _ h
  | true =>
    have hnone : (db.GetRecord now k2).1 = none := hnx hopt
    cases hg : db.GetRecord now k2 with
    | mk found db1 =>
      rw [hg] at hnone
      simp only at hnone
      subst hnone
      have hdb1 : db1 = (db.GetRecord now k2).2 := by rw [hg]
      have hsame : ∀ k, k ≠ k2 → db1.find k = db.find k := by
        intro k hk
        rw [hdb1]
        exact Database.GetRecord_snd_find_ne db now k2 k hk
      have hf1 : db1.find k1 = some R := by
        rw [hsame k1 hne, hf]
      obtain ⟨e1, e2, e3, e4⟩ := hmove db1 hf1 hsame
      refine ⟨(db1.insert k2 R).erase k1, ?_, ?_, e2, e3, e4⟩
      · simp only [Server.Rename, h, hopt, if_true, hg]
        rw [e1, hopt]
        rfl
      · simp only [Server.Rename, h, hopt, if_true, hg]
        rw [e1]
        exact Server.GetDatabase_store server conn.Database db _ h

/-- C8 at a concrete keyspace: `a` is renamed to `c`, which holds a record. -/
theorem Rename_moves_record_witness :
    sampleServer.GetDatabase (Conn.mk 0).Database = .ok sampleDb
    ∧ "a" ≠ "c"
    ∧ sampleDb.liveAt 1000000000 "a" = some ⟨.str "1", 0, 0⟩
    ∧ ((RenameOption.mk false).NX = true → sampleDb.liveAt 1000000000 "c" = none)
    ∧ ∃ db' : Database,
      sampleServer.Rename ⟨0⟩ "a" "c" ⟨false⟩ 1000000000
        = (.ok (if (RenameOption.mk false).NX then .integer 1 else .ok),
            sampleServer.store (Conn.mk 0).Database db')
      ∧ (sampleServer.Rename ⟨0⟩ "a" "c" ⟨false⟩ 1000000000).2.GetDatabase
            (Conn.mk 0).Database = .ok db'
      ∧ db'.find "a" = none
      ∧ db'.find "c" = some ⟨.str "1", 0, 0⟩
      ∧ (∀ k, k ≠ "a" → k ≠ "c" → db'.find k = sampleDb.find k) :=
  ⟨rfl, by decide, by decide, by decide,
    Rename_moves_record sampleServer ⟨0⟩ sampleDb "a" "c" ⟨.str "1", 0, 0⟩ ⟨false⟩
      1000000000 rfl (by decide) (by decide) (by decide)⟩

/-- C9: on a keyspace that resolves and in which `newkey` holds a live record, `Rename`
with `NX` returns the integer 0 with no error and leaves the server, hence the records
at `key`, at `newkey` and at every other key, exactly as before the call. -/
theorem Rename_NX_keeps_live_newkey (server : Server) (conn : Conn) (db : Database)
    (key newkey : String) (r : Record) (opt : RenameOption) (now : Int)
    (h : server.GetDatabase conn.Database = .ok db) (hopt : opt.NX = true)
    (hlive : db.liveAt now newkey = some r) :
    server.Rename conn key newkey opt now = (.ok (.integer 0), server)
    ∧ (server.Rename conn key newkey opt now).2.GetDatabase conn.Database = .ok db := by
  have hres : server.Rename conn key newkey opt now = (.ok (.integer 0), server) := by
    simp only [Server.Rename, h, hopt, if_true,
      Database.GetRecord_of_live db now newkey r hlive]
    rw [Server.store_self server conn.Database db h]
  exact ⟨hres, by rw [hres]; exact h⟩

/-- C9 at a concrete keyspace: `a` is renamed to `c` with `NX` while `c` is live. -/
theorem Rename_NX_keeps_live_newkey_witness :
    sampleServer.GetDatabase (Conn.mk 0).Database = .ok sampleDb
    ∧ (RenameOption.mk true).NX = true
    ∧ sampleDb.liveAt 1000000000 "c" = some ⟨.hash [], 0, 0⟩
    ∧ sampleServer.Rename ⟨0⟩ "a" "c" ⟨true⟩ 1000000000 = (.ok (.integer 0), sampleServer)
    ∧ (sampleServer.Rename ⟨0⟩ "a" "c" ⟨true⟩ 1000000000).2.GetDatabase
          (Conn.mk 0).Database = .ok sampleDb :=
  ⟨rfl, rfl, by decide,
    Rename_NX_keeps_live_newkey sampleServer ⟨0⟩ sampleDb "a" "c" ⟨.hash [], 0, 0⟩ ⟨true⟩
      1000000000 rfl rfl (by decide)⟩

/-- C10: on a keyspace that resolves and in which the source key has no live record,
`Rename` (without `NX`, or with `NX` when `newkey` is not live) returns the KeyNotFound
error and no message; the live view of the keyspace is the one before the call, every
key other than `newkey` maps to the record it had, and without `NX` the keyspace is
untouched. -/
theorem Rename_missing_source (server : Server) (conn : Conn) (db : Database)
    (key newkey : String) (opt : RenameOption) (now : Int)
    (h : server.GetDatabase conn.Database = .ok db)
    (hsrc : db.liveAt now key = none)
    (hnx : opt.NX = true → db.liveAt now newkey = none) :
    ∃ db' : Database,
      server.Rename conn key newkey opt now
        = (.err .keyNotFound, server.store conn.Database db')
      ∧ (server.Rename conn key newkey opt now).2.GetDatabase conn.Database = .ok db'
      ∧ (∀ k, db'.liveAt now k = db.liveAt now k)
      ∧ (∀ k, k ≠ newkey → db'.find k = db.find k)
      ∧ (opt.NX = false → db' = db) := by
  cases hopt : opt.NX with
  | false =>
    refine ⟨db, ?_, ?_, fun _ => rfl, fun _ _ => rfl, fun _ => rfl⟩
    · simp only [Server.Rename, h, hopt, Bool.false_eq_true, if_false, renameMove,
        Database.RenameRecord_of_not_live db now key newkey hsrc]
    · simp only [Server.Rename, h, hopt, Bool.false_eq_true, if_false, renameMove,
        Database.RenameRecord_of_not_live db now key newkey hsrc]
      exact Server.GetDatabase_store server conn.Database db _ h
  | true =>
    have hnone : (db.GetRecord now newkey).1 = none := hnx hopt
    cases hg : db.GetRecord now newkey with
    | mk found db1 =>
      rw [hg] at hnone
      simp only at hnone
      subst hnone
      have hdb1 : db1 = (db.GetRecord now newkey).2 := by rw [hg]
      have hview : ∀ k, db1.liveAt now k = db.liveAt now k := by
        intro k
        rw [hdb1]
        exact Database.liveAt_GetRecord db now newkey k
      have hsrc1 : db1.liveAt now key = none := by rw [hview, hsrc]
      refine ⟨db1, ?_, ?_, hview, ?_, ?_⟩
      · simp only [Server.Rename, h, hopt, if_true, hg, renameMove,
          Database.RenameRecord_of_not_live db1 now key newkey hsrc1]
      · simp only [Server.Rename, h, hopt, if_true, hg, renameMove,
          Database.RenameRecord_of_not_live db1 now key newkey hsrc1]
        exact Server.GetDatabase_store server conn.Database db _ h
      · intro k hk
        rw [hdb1]
        exact Database.GetRecord_snd_find_ne db now newkey k hk
      · intro hfalse
        simp at hfalse

/-- C10 at a concrete keyspace: the absent key `b` is renamed to `c` without `NX`. -/
theorem Rename_missing_source_witness :
    sampleServer.GetDatabase (Conn.mk 0).Database = .ok sampleDb
    ∧ sampleDb.liveAt 1000000000 "b" = none
    ∧ ((RenameOption.mk false).NX = true → sampleDb.liveAt 1000000000 "c" = none)
    ∧ ∃ db' : Database,
      sampleServer.Rename ⟨0⟩ "b" "c" ⟨false⟩ 1000000000
        = (.err .keyNotFound, sampleServer.store (Conn.mk 0).Database db')
      ∧ (sampleServer.Rename ⟨0⟩ "b" "c" ⟨false⟩ 1000000000).2.GetDatabase
            (Conn.mk 0).Database = .ok db'
      ∧ (∀ k, db'.liveAt 1000000000 k = sampleDb.liveAt 1000000000 k)
      ∧ (∀ k, k ≠ "c" → db'.find k = sampleDb.find k)
      ∧ ((RenameOption.mk false).NX = false → db' = sampleDb) :=
  ⟨rfl, by decide, by decide,
    Rename_missing_source sampleServer ⟨0⟩ sampleDb "b" "c" ⟨false⟩ 1000000000 rfl
      (by decide) (by decide)⟩

/-! ## Exists -/

theorem existsLoop_liveAt (now : Int) (keys : List String) :
    ∀ (db : Database) (n : Int) (k : String),
      (existsLoop now db n keys).2.liveAt now k = db.liveAt now k := by
  induction keys with
  | nil =>
    intro db n k
    rfl
  | cons key keys ih =>
    intro db n k
    have hview : (db.GetRecord now key).2.liveAt now k = db.liveAt now k :=
      Database.liveAt_GetRecord db now key k
    cases hg : db.GetRecord now key with
    | mk found db' =>
      rw [hg] at hview
      cases found with
      | none =>
        simp only [existsLoop, hg]
        rw [ih db' n k]
        exact hview
      | some r =>
        simp only [existsLoop, hg]
        rw [ih db' (n + 1) k]
        exact hview

/-- C11: on a keyspace that resolves, `Exists` returns, with no error, the number of
positions of the list whose key has a live record at the time of the call (a live key
listed twice counts twice, an expired key counts zero), a number between 0 and the
length of the list; the live view of the keyspace after the call is the one before. -/
theorem Exists_counts_live_positions (server : Server) (conn : Conn) (db : Database)
    (keys : List String) (now : Int)
    (h : server.GetDatabase conn.Database = .ok db) :
    ∃ db' : Database,
      server.Exists conn keys now
        = (.ok (.integer ((keys.filter (fun k => (db.liveAt now k).isSome)).length)),
            server.store conn.Database db')
      ∧ (server.Exists conn keys now).2.GetDatabase conn.Database = .ok db'
      ∧ (∀ k, db'.liveAt now k = db.liveAt now k)
      ∧ (0 : Int) ≤ ((keys.filter (fun k => (db.liveAt now k).isSome)).length : Int)
      ∧ ((keys.filter (fun k => (db.liveAt now k).isSome)).length : Int) ≤ keys.length := by
  refine ⟨(existsLoop now db 0 keys).2, ?_, ?_, ?_, ?_, ?_⟩
  · simp only [Server.Exists, h]
    rw [← zero_add (((keys.filter (fun k => (db.liveAt now k).isSome)).length : Nat) : Int),
      ← existsLoop_count now keys db 0]
  · simp only [Server.Exists, h]
    exact Server.GetDatabase_store server conn.Database db _ h
  · intro k
    exact existsLoop_liveAt now keys db 0 k
  · exact Int.natCast_nonneg _
  · exact_mod_cast List.length_filter_le _ keys

/-- C11 at a concrete keyspace: `a` twice, the absent `b` and the expired `e`, at 6 s. -/
theorem Exists_counts_live_positions_witness :
    sampleServer.GetDatabase (Conn.mk 0).Database = .ok sampleDb
    ∧ (sampleServer.Exists ⟨0⟩ ["a", "b", "a", "e"] 6000000000).1 = .ok (.integer 2)
    ∧ ∃ db' : Database,
      sampleServer.Exists ⟨0⟩ ["a", "b", "a", "e"] 6000000000
        = (.ok (.integer ((["a", "b", "a", "e"].filter
              (fun k => (sampleDb.liveAt 6000000000 k).isSome)).length)),
            sampleServer.store (Conn.mk 0).Database db')
      ∧ (sampleServer.Exists ⟨0⟩ ["a", "b", "a", "e"] 6000000000).2.GetDatabase
            (Conn.mk 0).Database = .ok db'
      ∧ (∀ k, db'.liveAt 6000000000 k = sampleDb.liveAt 6000000000 k)
      ∧ (0 : Int) ≤ ((["a", "b", "a", "e"].filter
              (fun k => (sampleDb.liveAt 6000000000 k).isSome)).length : Int)
      ∧ ((["a", "b", "a", "e"].filter
              (fun k => (sampleDb.liveAt 6000000000 k).isSome)).length : Int)
          ≤ ["a", "b", "a", "e"].length :=
  ⟨rfl, by decide,
    Exists_counts_live_positions sampleServer ⟨0⟩ sampleDb ["a", "b", "a", "e"]
      6000000000 rfl⟩

/-! ## Del, again -/

theorem delLoop_absent (keys : List String) (db : Database) (n : Int)
    (habs : ∀ k ∈ keys, db.find k = none) : delLoop db n keys = (n, db) := by
  induction keys with
  | nil => rfl
  | cons key keys ih =>
    have hk : db.find key = none := habs key (List.mem_cons_self _ _)
    simp only [delLoop, Database.RemoveRecord, hk]
    exact ih (fun k hm => habs k (List.mem_cons_of_mem _ hm))

/-- C14: on a keyspace that resolves, `Del` of keys none of which is present returns 0
and leaves the server as it was; hence a second `Del` of the same list right after a
first one returns 0 and leaves the state the first one produced. -/
theorem Del_idempotent (server : Server) (conn : Conn) (db : Database)
    (h : server.GetDatabase conn.Database = .ok db) :
    (∀ keys : List String, (∀ k ∈ keys, db.find k = none) →
      server.Del conn keys = (.ok (.integer 0), server))
    ∧ (∀ keys : List String,
        (server.Del conn keys).2.Del conn keys
          = (.ok (.integer 0), (server.Del conn keys).2)) := by
  have habsent : ∀ (srv : Server) (d : Database) (keys : List String),
      srv.GetDatabase conn.Database = .ok d → (∀ k ∈ keys, d.find k = none) →
      srv.Del conn keys = (.ok (.integer 0), srv) := by
    intro srv d keys hd habs
    simp only [Server.Del, hd, delLoop_absent keys d 0 habs]
    rw [Server.store_self srv conn.Database d hd]
  refine ⟨fun keys habs => habsent server db keys h habs, fun keys => ?_⟩
  have hres : (server.Del conn keys).2.GetDatabase conn.Database
      = .ok (delLoop db 0 keys).2 := by
    simp only [Server.Del, h]
    exact Server.GetDatabase_store server conn.Database db _ h
  exact habsent _ _ keys hres (fun k hk => delLoop_find_mem keys db 0 k hk)

/-- C14 at a concrete keyspace: `Del` of the absent keys `b` and `x`, and `Del` of `a`
and `b` twice in a row. -/
theorem Del_idempotent_witness :
    sampleServer.GetDatabase (Conn.mk 0).Database = .ok sampleDb
    ∧ (∀ k ∈ ["b", "x"], sampleDb.find k = none)
    ∧ sampleServer.Del ⟨0⟩ ["b", "x"] = (.ok (.integer 0), sampleServer)
    ∧ (sampleServer.Del ⟨0⟩ ["a", "b"]).2.Del ⟨0⟩ ["a", "b"]
        = (.ok (.integer 0), (sampleServer.Del ⟨0⟩ ["a", "b"]).2) :=
  ⟨rfl, by decide,
    (Del_idempotent sampleServer ⟨0⟩ sampleDb rfl).1 ["b", "x"] (by decide),
    (Del_idempotent sampleServer ⟨0⟩ sampleDb rfl).2 ["a", "b"]⟩

/-! ## A database index that does not resolve -/

/-- C15: when the database index of the connection does not resolve, `Del`, `Exists`,
`Type` and `Keys` return the resolution error and no message, for every argument; the
server is left as it was. -/
theorem resolution_error_is_returned (server : Server) (conn : Conn) (e : Error)
    (h : server.GetDatabase conn.Database = .error e) :
    (∀ keys : List String, server.Del conn keys = (.err e, server))
    ∧ (∀ (keys : List String) (now : Int), server.Exists conn keys now = (.err e, server))
    ∧ (∀ (key : String) (now : Int), server.Type conn key now = (.err e, server))
    ∧ (∀ pattern : String, server.Keys conn pattern = some (.err e, server)) := by
  refine ⟨?_, ?_, ?_, ?_⟩
  · intro keys
    simp only [Server.Del, h]
  · intro keys now
    simp only [Server.Exists, h]
  · intro key now
    simp only [Server.Type, h]
  · intro pattern
    simp only [Server.Keys, h]

/-- C15 at a concrete server: the connection has selected database 7, the server has
only database 0. -/
theorem resolution_error_is_returned_witness :
    sampleServer.GetDatabase (Conn.mk 7).Database = .error .unknownDatabase
    ∧ (∀ keys : List String,
        sampleServer.Del ⟨7⟩ keys = (.err .unknownDatabase, sampleServer))
    ∧ (∀ (keys : List String) (now : Int),
        sampleServer.Exists ⟨7⟩ keys now = (.err .unknownDatabase, sampleServer))
    ∧ (∀ (key : String) (now : Int),
        sampleServer.Type ⟨7⟩ key now = (.err .unknownDatabase, sampleServer))
    ∧ (∀ pattern : String,
        sampleServer.Keys ⟨7⟩ pattern = some (.err .unknownDatabase, sampleServer)) :=
  ⟨rfl, resolution_error_is_returned sampleServer ⟨7⟩ .unknownDatabase rfl⟩

/-! ## Expire -/

theorem lookupRecord_modify_self (key : String) (f : Record → Record)
    (l : List (String × Record)) :
    lookupRecord key (modifyRecord key f l) = (lookupRecord key l).map f := by
  induction l with
  | nil => rfl
  | cons e rest ih =>
    obtain ⟨k, r⟩ := e
    by_cases hk : k = key
    · simp [modifyRecord, lookupRecord, hk]
    · simp [modifyRecord, lookupRecord, hk, ih]

theorem lookupRecord_modify_ne (key other : String) (f : Record → Record)
    (h : other ≠ key) (l : List (String × Record)) :
    lookupRecord other (modifyRecord key f l) = lookupRecord other l := by
  induction l with
  | nil => rfl
  | cons e rest ih =>
    obtain ⟨k, r⟩ := e
    by_cases hk : k = key
    · have hko : ¬ key = other := fun e => h e.symm
      simp [modifyRecord, lookupRecord, hk, hko]
    · by_cases hko : k = other
      · subst hko
        simp [modifyRecord, lookupRecord, hk]
      · simp [modifyRecord, lookupRecord, hk, hko, ih]

theorem Database.find_modify_self (db : Database) (key : String) (f : Record → Record) :
    (db.modify key f).find key = (db.find key).map f :=
  lookupRecord_modify_self key f db.records

theorem Database.find_modify_ne (db : Database) (key other : String)
    (f : Record → Record) (h : other ≠ key) :
    (db.modify key f).find other = db.find other :=
  lookupRecord_modify_ne key other f h db.records

theorem Server.Expire_of_live (server : Server) (conn : Conn) (db : Database)
    (key : String) (opt : ExpireOption) (tLookup now : Int) (r : Record)
    (h : server.GetDatabase conn.Database = .ok db)
    (hlive : db.liveAt tLookup key = some r) :
    server.Expire conn key opt tLookup now
      = (.ok (.integer 1),
          server.store conn.Database
            (db.modify key (fun record => { record with TTL := Time.Sub opt.Time now }))) := by
  simp only [Server.Expire, h, Database.GetRecord_of_live db tLookup key r hlive]

theorem Server.Expire_of_not_live (server : Server) (conn : Conn) (db : Database)
    (key : String) (opt : ExpireOption) (tLookup now : Int)
    (h : server.GetDatabase conn.Database = .ok db)
    (hnone : db.liveAt tLookup key = none) :
    server.Expire conn key opt tLookup now
      = (.ok (.integer 0), server.store conn.Database (db.GetRecord tLookup key).2) := by
  have hfst : (db.GetRecord tLookup key).1 = none := hnone
  simp only [Server.Expire, h]
  cases hg : db.GetRecord tLookup key with
  | mk found db1 =>
    rw [hg] at hfst
    simp only at hfst
    subst hfst
    rfl

/-- C12, the claim at a failing input: `e` expired at 5 s and is still stored; `Expire`
of `e` at 6 s returns 0, and the lookup it makes has removed the stored record, so the
keyspace is not the one before the call. -/
theorem Expire_evicts_expired_record :
    sampleServer.GetDatabase (Conn.mk 0).Database = .ok sampleDb
    ∧ sampleDb.find "e" = some ⟨.str "v", 0, 5000000000⟩
    ∧ (sampleServer.Expire ⟨0⟩ "e" ⟨10000000000, false, false, false, false⟩
        6000000000 6000000000).1 = .ok (.integer 0)
    ∧ (sampleServer.Expire ⟨0⟩ "e" ⟨10000000000, false, false, false, false⟩
        6000000000 6000000000).2.GetDatabase (Conn.mk 0).Database
        = .ok ⟨[("a", ⟨.str "1", 0, 0⟩), ("c", ⟨.hash [], 0, 0⟩)]⟩
    ∧ (sampleServer.Expire ⟨0⟩ "e" ⟨10000000000, false, false, false, false⟩
        6000000000 6000000000).2 ≠ sampleServer := by
  refine ⟨rfl, by decide, by decide, rfl, by decide⟩

/-- C12, amended: on a keyspace that resolves, `Expire` returns the integer 1 with no
error iff the key has a live record at the time of the call, and the integer 0 with no
error otherwise.  When it returns 1, the record at the key keeps its payload and
timestamp and gets the new TTL, and every other key maps to the record it had.  When it
returns 0, the live view of the keyspace and the records at the other keys are as
before, and the keyspace is untouched when nothing is stored at the key. -/
theorem Expire_applies_iff_live (server : Server) (conn : Conn) (db : Database)
    (key : String) (opt : ExpireOption) (tLookup now : Int)
    (h : server.GetDatabase conn.Database = .ok db) :
    (∀ r, db.liveAt tLookup key = some r →
      ∃ db' : Database,
        server.Expire conn key opt tLookup now
          = (.ok (.integer 1), server.store conn.Database db')
        ∧ (server.Expire conn key opt tLookup now).2.GetDatabase conn.Database = .ok db'
        ∧ db'.find key = some ⟨r.Data, r.Timestamp, Time.Sub opt.Time now⟩
        ∧ (∀ k, k ≠ key → db'.find k = db.find k))
    ∧ (db.liveAt tLookup key = none →
      ∃ db' : Database,
        server.Expire conn key opt tLookup now
          = (.ok (.integer 0), server.store conn.Database db')
        ∧ (server.Expire conn key opt tLookup now).2.GetDatabase conn.Database = .ok db'
        ∧ (∀ k, db'.liveAt tLookup k = db.liveAt tLookup k)
        ∧ (∀ k, k ≠ key → db'.find k = db.find k)
        ∧ (db.find key = none → db' = db))
    ∧ ((server.Expire conn key opt tLookup now).1 = .ok (.integer 1)
        ↔ (db.liveAt tLookup key).isSome = true)
    ∧ ((server.Expire conn key opt tLookup now).1 = .ok (.integer 1)
        ∨ (server.Expire conn key opt tLookup now).1 = .ok (.integer 0)) := by
  refine ⟨?_, ?_, ?_, ?_⟩
  · intro r hlive
    have hres := Server.Expire_of_live server conn db key opt tLookup now r h hlive
    obtain ⟨hf, _⟩ := (Database.liveAt_eq_some db tLookup key r).mp hlive
    refine ⟨_, hres, ?_, ?_, ?_⟩
    · rw [hres]
      exact Server.GetDatabase_store server conn.Database db _ h
    · rw [Database.find_modify_self, hf]
      rfl
    · intro k hk
      exact Database.find_modify_ne db key k _ hk
  · intro hnone
    have hres := Server.Expire_of_not_live server conn db key opt tLookup now h hnone
    refine ⟨_, hres, ?_, ?_, ?_, ?_⟩
    · rw [hres]
      exact Server.GetDatabase_store server conn.Database db _ h
    · intro k
      exact Database.liveAt_GetRecord db tLookup key k
    · intro k hk
      exact Database.GetRecord_snd_find_ne db tLookup key k hk
    · intro hf
      simp [Database.GetRecord, hf]
  · cases hl : db.liveAt tLookup key with
    | none =>
      rw [Server.Expire_of_not_live server conn db key opt tLookup now h hl]
      simp
    | some r =>
      rw [Server.Expire_of_live server conn db key opt tLookup now r h hl]
      simp
  · cases hl : db.liveAt tLookup key with
    | none =>
      right
      rw [Server.Expire_of_not_live server conn db key opt tLookup now h hl]
    | some r =>
      left
      rw [Server.Expire_of_live server conn db key opt tLookup now r h hl]

/-- C12, amended, at a concrete keyspace: `Expire` of the live key `a` at 4 s with the
deadline 10 s. -/
theorem Expire_applies_iff_live_witness :
    sampleServer.GetDatabase (Conn.mk 0).Database = .ok sampleDb
    ∧ sampleDb.liveAt 4000000000 "a" = some ⟨.str "1", 0, 0⟩
    ∧ ∃ db' : Database,
        sampleServer.Expire ⟨0⟩ "a" ⟨10000000000, false, false, false, false⟩
            4000000000 4000000000
          = (.ok (.integer 1), sampleServer.store (Conn.mk 0).Database db')
        ∧ (sampleServer.Expire ⟨0⟩ "a" ⟨10000000000, false, false, false, false⟩
            4000000000 4000000000).2.GetDatabase (Conn.mk 0).Database = .ok db'
        ∧ db'.find "a"
            = some ⟨(Record.mk (.str "1") 0 0).Data, (Record.mk (.str "1") 0 0).Timestamp,
                Time.Sub (ExpireOption.mk 10000000000 false false false false).Time
                  4000000000⟩
        ∧ (∀ k, k ≠ "a" → db'.find k = sampleDb.find k) :=
  ⟨rfl, by decide,
    (Expire_applies_iff_live sampleServer ⟨0⟩ sampleDb "a"
      ⟨10000000000, false, false, false, false⟩ 4000000000 4000000000 rfl).1
      ⟨.str "1", 0, 0⟩ (by decide)⟩

/-- C17: `Expire` does not consult the condition flags: two options with the same
`Time` give the same result and the same resulting server, whatever their `NX`, `XX`,
`GT` and `LT`. -/
theorem Expire_ignores_flags (server : Server) (conn : Conn) (key : String)
    (opt1 opt2 : ExpireOption) (tLookup now : Int) (hT : opt1.Time = opt2.Time) :
    server.Expire conn key opt1 tLookup now = server.Expire conn key opt2 tLookup now := by
  simp only [Server.Expire, hT]

/-- C17 at a concrete keyspace: the same deadline with no flag and with all four. -/
theorem Expire_ignores_flags_witness :
    (ExpireOption.mk 10000000000 false false false false).Time
      = (ExpireOption.mk 10000000000 true true true true).Time
    ∧ sampleServer.Expire ⟨0⟩ "a" ⟨10000000000, false, false, false, false⟩
          4000000000 4000000000
        = sampleServer.Expire ⟨0⟩ "a" ⟨10000000000, true, true, true, true⟩
          4000000000 4000000000 :=
  ⟨rfl, Expire_ignores_flags sampleServer ⟨0⟩ "a" ⟨10000000000, false, false, false, false⟩
    ⟨10000000000, true, true, true, true⟩ 4000000000 4000000000 rfl⟩

/-- C16, the claim at a failing input: with a database index that does not resolve,
`TTL` returns the resolution error, not the integer -2. -/
theorem TTL_returns_resolution_error :
    sampleServer.GetDatabase (Conn.mk 7).Database = .error .unknownDatabase
    ∧ sampleServer.TTL ⟨7⟩ "a" 0 0 = (.err .unknownDatabase, sampleServer)
    ∧ (sampleServer.TTL ⟨7⟩ "a" 0 0).1 ≠ .ok (.integer (-2)) := by
  refine ⟨rfl, rfl, by decide⟩

/-- C16, amended: when the database index of the connection does not resolve, `Expire`
returns the integer 0 with no error for every key and option, and `TTL` returns the
resolution error and no message for every key; both leave the server as it was. -/
theorem Expire_swallows_TTL_returns_resolution_error (server : Server) (conn : Conn)
    (e : Error) (h : server.GetDatabase conn.Database = .error e) :
    (∀ (key : String) (opt : ExpireOption) (tLookup now : Int),
      server.Expire conn key opt tLookup now = (.ok (.integer 0), server))
    ∧ (∀ (key : String) (tLookup now : Int),
      server.TTL conn key tLookup now = (.err e, server)) := by
  constructor
  · intro key opt tLookup now
    simp only [Server.Expire, h]
  · intro key tLookup now
    simp only [Server.TTL, h]

/-- C16, amended, at a concrete server: the connection has selected database 7. -/
theorem Expire_swallows_TTL_returns_resolution_error_witness :
    sampleServer.GetDatabase (Conn.mk 7).Database = .error .unknownDatabase
    ∧ (∀ (key : String) (opt : ExpireOption) (tLookup now : Int),
      sampleServer.Expire ⟨7⟩ key opt tLookup now = (.ok (.integer 0), sampleServer))
    ∧ (∀ (key : String) (tLookup now : Int),
      sampleServer.TTL ⟨7⟩ key tLookup now = (.err .unknownDatabase, sampleServer)) :=
  ⟨rfl, Expire_swallows_TTL_returns_resolution_error sampleServer ⟨7⟩ .unknownDatabase rfl⟩

/-- C19, the code at a failing input: `a` is live; `Expire` at 10 s with the deadline
5 s, which has passed, returns 1 and stores the TTL -5 s, which reads as no expiration:
afterwards `Exists` counts the key and `TTL` returns -1, at 10 s and an hour later. -/
theorem Expire_past_deadline_persists :
    (sampleServer.Expire ⟨0⟩ "a" ⟨5000000000, false, false, false, false⟩
        10000000000 10000000000).1 = .ok (.integer 1)
    ∧ ((sampleServer.Expire ⟨0⟩ "a" ⟨5000000000, false, false, false, false⟩
        10000000000 10000000000).2.Exists ⟨0⟩ ["a"] 10000000000).1 = .ok (.integer 1)
    ∧ ((sampleServer.Expire ⟨0⟩ "a" ⟨5000000000, false, false, false, false⟩
        10000000000 10000000000).2.TTL ⟨0⟩ "a" 10000000000 10000000000).1
        = .ok (.integer (-1))
    ∧ ((sampleServer.Expire ⟨0⟩ "a" ⟨5000000000, false, false, false, false⟩
        10000000000 10000000000).2.Exists ⟨0⟩ ["a"] 3610000000000).1 = .ok (.integer 1)
    ∧ ((sampleServer.Expire ⟨0⟩ "a" ⟨5000000000, false, false, false, false⟩
        10000000000 10000000000).2.TTL ⟨0⟩ "a" 3610000000000 3610000000000).1
        = .ok (.integer (-1)) := by
  refine ⟨by decide, by decide, by decide, by decide, by decide⟩

/-! ## Type -/

theorem Server.Type_of_not_live (server : Server) (conn : Conn) (db : Database)
    (key : String) (now : Int) (h : server.GetDatabase conn.Database = .ok db)
    (hnone : db.liveAt now key = none) :
    (server.Type conn key now).1 = .ok (.string "none") := by
  have hfst : (db.GetRecord now key).1 = none := hnone
  simp only [Server.Type, h]
  cases hg : db.GetRecord now key with
  | mk found db1 =>
    rw [hg] at hfst
    simp only at hfst
    subst hfst
    rfl

theorem Server.Type_of_live (server : Server) (conn : Conn) (db : Database)
    (key : String) (now : Int) (r : Record)
    (h : server.GetDatabase conn.Database = .ok db)
    (hlive : db.liveAt now key = some r) :
    (server.Type conn key now).1
      = match r.Data with
        | .str _ => .ok (.string "string")
        | .hash _ => .ok (.string "hash")
        | .list _ => .ok (.string "list")
        | .set _ => .ok (.string "set")
        | .zset _ => .ok (.string "zset")
        | .other _ => .ok (.string "none") := by
  simp only [Server.Type, h, Database.GetRecord_of_live db now key r hlive]
  cases r.Data <;> rfl

/-- C13: on a keyspace that resolves, `Type` returns, with no error, one of the six
strings "string", "hash", "list", "set", "zset", "none": "none" when the key has no
live record, and otherwise the tag of the payload variant of the live record.  For a
record whose payload is one of the five variants, "none" is returned iff the key has no
live record. -/
theorem Type_reports_variant (server : Server) (conn : Conn) (db : Database)
    (key : String) (now : Int) (h : server.GetDatabase conn.Database = .ok db) :
    (db.liveAt now key = none → (server.Type conn key now).1 = .ok (.string "none"))
    ∧ (∀ r v, db.liveAt now key = some r → r.Data = .str v →
        (server.Type conn key now).1 = .ok (.string "string"))
    ∧ (∀ r v, db.liveAt now key = some r → r.Data = .hash v →
        (server.Type conn key now).1 = .ok (.string "hash"))
    ∧ (∀ r v, db.liveAt now key = some r → r.Data = .list v →
        (server.Type conn key now).1 = .ok (.string "list"))
    ∧ (∀ r v, db.liveAt now key = some r → r.Data = .set v →
        (server.Type conn key now).1 = .ok (.string "set"))
    ∧ (∀ r v, db.liveAt now key = some r → r.Data = .zset v →
        (server.Type conn key now).1 = .ok (.string "zset"))
    ∧ (∃ s, (server.Type conn key now).1 = .ok (.string s)
        ∧ s ∈ ["string", "hash", "list", "set", "zset", "none"])
    ∧ ((∀ r, db.liveAt now key = some r → ∀ t, r.Data ≠ .other t) →
        ((server.Type conn key now).1 = .ok (.string "none")
          ↔ db.liveAt now key = none)) := by
  have hv : ∀ r, db.liveAt now key = some r → ∀ d, r.Data = d →
      (server.Type conn key now).1
        = match d with
          | .str _ => .ok (.string "string")
          | .hash _ => .ok (.string "hash")
          | .list _ => .ok (.string "list")
          | .set _ => .ok (.string "set")
          | .zset _ => .ok (.string "zset")
          | .other _ => .ok (.string "none") := by
    intro r hr d hd
    rw [Server.Type_of_live server conn db key now r h hr, hd]
  refine ⟨Server.Type_of_not_live server conn db key now h,
    fun r v hr hd => hv r hr _ hd, fun r v hr hd => hv r hr _ hd,
    fun r v hr hd => hv r hr _ hd, fun r v hr hd => hv r hr _ hd,
    fun r v hr hd => hv r hr _ hd, ?_, ?_⟩
  · cases hl : db.liveAt now key with
    | none =>
      exact ⟨"none", Server.Type_of_not_live server conn db key now h hl, by simp⟩
    | some r =>
      cases hd : r.Data with
      | str v => exact ⟨"string", hv r hl _ hd, by simp⟩
      | hash v => exact ⟨"hash", hv r hl _ hd, by simp⟩
      | list v => exact ⟨"list", hv r hl _ hd, by simp⟩
      | set v => exact ⟨"set", hv r hl _ hd, by simp⟩
      | zset v => exact ⟨"zset", hv r hl _ hd, by simp⟩
      | other t => exact ⟨"none", hv r hl _ hd, by simp⟩
  · intro hfive
    constructor
    · intro hnone
      cases hl : db.liveAt now key with
      | none => rfl
      | some r =>
        exfalso
        cases hd : r.Data with
        | str v =>
          rw [hv r hl _ hd] at hnone
          simp at hnone
        | hash v =>
          rw [hv r hl _ hd] at hnone
          simp at hnone
        | list v =>
          rw [hv r hl _ hd] at hnone
          simp at hnone
        | set v =>
          rw [hv r hl _ hd] at hnone
          simp at hnone
        | zset v =>
          rw [hv r hl _ hd] at hnone
          simp at hnone
        | other t => exact hfive r hl t hd
    · exact Server.Type_of_not_live server conn db key now h

/-- C13 at a concrete keyspace: `c` holds a hash, so `Type` is "hash" and not "none". -/
theorem Type_reports_variant_witness :
    sampleServer.GetDatabase (Conn.mk 0).Database = .ok sampleDb
    ∧ sampleDb.liveAt 1000000000 "c" = some ⟨.hash [], 0, 0⟩
    ∧ (Record.mk (.hash []) 0 0).Data = .hash []
    ∧ (sampleServer.Type ⟨0⟩ "c" 1000000000).1 = .ok (.string "hash")
    ∧ (∀ r, sampleDb.liveAt 1000000000 "c" = some r → ∀ t, r.Data ≠ .other t)
    ∧ ((sampleServer.Type ⟨0⟩ "c" 1000000000).1 = .ok (.string "none")
        ↔ sampleDb.liveAt 1000000000 "c" = none) :=
  have hc : sampleDb.liveAt 1000000000 "c" = some ⟨.hash [], 0, 0⟩ := by decide
  have hfive : ∀ r, sampleDb.liveAt 1000000000 "c" = some r → ∀ t, r.Data ≠ .other t := by
    intro r hr t
    rw [hc] at hr
    injection hr with hr
    subst hr
    simp
  ⟨rfl, hc, rfl,
    (Type_reports_variant sampleServer ⟨0⟩ sampleDb "c" 1000000000 rfl).2.2.1
      ⟨.hash [], 0, 0⟩ [] hc rfl,
    hfive,
    (Type_reports_variant sampleServer ⟨0⟩ sampleDb "c" 1000000000 rfl).2.2.2.2.2.2.2 hfive⟩

/-! ## The translation, character by character -/

theorem ReplaceAll_single_data (s : String) (old : Char) (new : String) :
    (ReplaceAll s ⟨[old]⟩ new).data
      = s.data.flatMap (fun c => if c = old then new.data else [c]) := by
  simp only [ReplaceAll, replaceLoop_single]

theorem flatMap_swapped_passes (l : List Char) :
    (l.flatMap (fun c => if c = '?' then ['.'] else [c])).flatMap
        (fun c => if c = '*' then ['.', '*'] else [c])
      = l.flatMap translateChar := by
  induction l with
  | nil => rfl
  | cons c t ih =>
    simp only [List.flatMap_cons, List.flatMap_append, ih]
    congr 1
    by_cases hs : c = '*'
    · subst hs
      decide
    · by_cases hq : c = '?'
      · subst hq
        decide
      · simp [translateChar, hs, hq]

/-- C20: the string `MustCompile` hands to the engine is the translation of the glob
character by character, in order: a `*` becomes `.*`, a `?` becomes `.`, every other
character is copied.  The translation distributes over concatenation, maps the empty
pattern to the empty string, and is the same when the two `ReplaceAll` passes run in the
other order. -/
theorem re2Pattern_translates_each_character :
    (∀ p : String, (re2Pattern p).data = p.data.flatMap translateChar)
    ∧ (∀ p : String, MustCompile p = re.Compile ⟨p.data.flatMap translateChar⟩)
    ∧ (∀ p q : String, re2Pattern (p ++ q) = re2Pattern p ++ re2Pattern q)
    ∧ re2Pattern "" = ""
    ∧ (∀ p : String, ReplaceAll (ReplaceAll p "?" ".") "*" ".*" = re2Pattern p) := by
  refine ⟨re2Pattern_data, ?_, ?_, rfl, ?_⟩
  · intro p
    unfold MustCompile
    congr 1
    exact String.ext (re2Pattern_data p)
  · intro p q
    apply String.ext
    rw [String.data_append, re2Pattern_data, re2Pattern_data, re2Pattern_data,
      String.data_append, List.flatMap_append]
  · intro p
    apply String.ext
    have h1 : ("?" : String) = ⟨['?']⟩ := rfl
    have h2 : ("*" : String) = ⟨['*']⟩ := rfl
    have h3 : (".*" : String).data = ['.', '*'] := rfl
    have h4 : ("." : String).data = ['.'] := rfl
    rw [h1, h2, ReplaceAll_single_data, ReplaceAll_single_data, h3, h4, re2Pattern_data]
    exact flatMap_swapped_passes p.data

end GoRedis
